import Mathlib

/-!
Verification development for the GT-hackathon automated insight engine
(ingestion / merge / transform / analytics pipeline).

The Python sources under `backend/pipeline/` are shallowly embedded:
pandas DataFrames become a `DataFrame` structure of named columns over a
`Cell` type (`num` for numeric values, `str` for text, `null` for NaN /
missing), Python strings become `String` / `List Char`, floats become `ℚ`
(with NumPy's round-half-to-even modelled exactly on `ℚ`), and the few
regular expressions used by the pipeline are embedded as deterministic
scanners that agree with Python's `re` semantics on the pattern shapes the
source uses.  Every definition is executable, so the theorems below can be
evaluated on concrete inputs by `decide` / `rfl`.
-/

set_option maxRecDepth 4000

/-! ## Characters and column-identifier normalization (ingest.py, normalize_column_name) -/

/-- Lower-case ASCII letters `a`-`z` (codes 97-122). -/
def isLowerAZ (c : Char) : Bool := 97 ≤ c.toNat && c.toNat ≤ 122

/-- ASCII digits `0`-`9` (codes 48-57). -/
def isDigitC (c : Char) : Bool := 48 ≤ c.toNat && c.toNat ≤ 57

/-- The underscore character (code 95). -/
def isU (c : Char) : Bool := c.toNat = 95

/-- Characters kept by `re.sub(r'[^a-z0-9_]', '', col)`. -/
def isAllowed (c : Char) : Bool := isLowerAZ c || isDigitC c || isU c

/-- Upper-case ASCII letters `A`-`Z` (codes 65-90). -/
def isUpperAZ (c : Char) : Bool := 65 ≤ c.toNat && c.toNat ≤ 90

/-- ASCII case folding, as performed by `str.lower()` on the identifiers
the pipeline sees. -/
def asciiLower (c : Char) : Char :=
  if isUpperAZ c then Char.ofNat (c.toNat + 32) else c

/-- Python whitespace as recognized by `str.strip()` and by `\s`:
space, tab, newline, carriage return, vertical tab, form feed. -/
def isPySpace (c : Char) : Bool :=
  c.toNat = 32 || c.toNat = 9 || c.toNat = 10 || c.toNat = 13 ||
  c.toNat = 11 || c.toNat = 12

/-- The character class `[\s\-\.]` of `re.sub(r'[\s\-\.]+', '_', col)`:
whitespace, hyphen (45) or dot (46). -/
def isSepChar (c : Char) : Bool := isPySpace c || c.toNat = 45 || c.toNat = 46

/-- Replace every maximal run of characters satisfying `p` by the single
character `r`; the flag records whether we are inside such a run.  This is
`re.sub(r'[class]+', r, s)` for a one-character-class pattern. -/
def collapseAux (p : Char → Bool) (r : Char) : Bool → List Char → List Char
  | _, [] => []
  | inRun, c :: cs =>
    if p c then
      (if inRun then collapseAux p r true cs else r :: collapseAux p r true cs)
    else c :: collapseAux p r false cs

/-- `re.sub(r'[class]+', r, s)` for a one-character class. -/
def collapseRuns (p : Char → Bool) (r : Char) (l : List Char) : List Char :=
  collapseAux p r false l

/-- Remove the trailing run of characters satisfying `p`
(the right half of Python's `strip`). -/
def rstripAux (p : Char → Bool) : List Char → List Char
  | [] => []
  | c :: cs =>
    match rstripAux p cs with
    | [] => if p c then [] else [c]
    | d :: ds => c :: d :: ds

/-- Python's `str.strip(chars)`: remove the leading and trailing runs of
characters satisfying `p`. -/
def pyStrip (p : Char → Bool) (l : List Char) : List Char :=
  rstripAux p (l.dropWhile p)

/-- `normalize_column_name` from `ingest.py`, on character lists:
lower-case, strip whitespace, `[\s\-\.]+ → _`, drop `[^a-z0-9_]`,
`_+ → _`, strip `_`. -/
def normalizeChars (l : List Char) : List Char :=
  pyStrip isU
    (collapseRuns isU '_'
      ((collapseRuns isSepChar '_'
        (pyStrip isPySpace (l.map asciiLower))).filter isAllowed))

/-- `normalize_column_name` from `ingest.py`. -/
def normalize_column_name (s : String) : String :=
  String.mk (normalizeChars s.data)

/-! ### Invariants of normalized identifiers -/

/-- No two adjacent underscores. -/
def noAdjU : List Char → Bool
  | a :: b :: rest => (!(isU a && isU b)) && noAdjU (b :: rest)
  | _ => true

lemma char_eq_of_isU {c : Char} (h : isU c = true) : c = '_' := by
  simp only [isU, decide_eq_true_eq] at h
  have h2 : Char.ofNat c.toNat = Char.ofNat 95 := by rw [h]
  rwa [Char.ofNat_toNat] at h2

lemma noAdjU_tail {a : Char} {l : List Char} (h : noAdjU (a :: l) = true) :
    noAdjU l = true := by
  cases l with
  | nil => rfl
  | cons b t => simp [noAdjU] at h; exact h.2

lemma allowed_not_upper {c : Char} (h : isAllowed c = true) : isUpperAZ c = false := by
  simp [isAllowed, isLowerAZ, isDigitC, isU] at h
  simp [isUpperAZ]
  omega

lemma allowed_not_space {c : Char} (h : isAllowed c = true) : isPySpace c = false := by
  simp [isAllowed, isLowerAZ, isDigitC, isU] at h
  simp [isPySpace]
  omega

lemma allowed_not_sep {c : Char} (h : isAllowed c = true) : isSepChar c = false := by
  simp [isAllowed, isLowerAZ, isDigitC, isU] at h
  simp [isSepChar, isPySpace]
  omega

lemma allowed_asciiLower {c : Char} (h : isAllowed c = true) : asciiLower c = c := by
  rw [asciiLower, allowed_not_upper h]
  rfl

/-! ### Identity lemmas: each pass is the identity on already-normalized input -/

lemma map_asciiLower_id {l : List Char} (h : ∀ c ∈ l, isAllowed c = true) :
    l.map asciiLower = l := by
  induction l with
  | nil => rfl
  | cons a t ih =>
    simp only [List.map_cons]
    rw [allowed_asciiLower (h a (by simp)), ih (fun c hc => h c (by simp [hc]))]

lemma dropWhile_id_of_none {p : Char → Bool} {l : List Char}
    (h : ∀ c ∈ l, p c = false) : l.dropWhile p = l := by
  cases l with
  | nil => rfl
  | cons a t => simp [List.dropWhile, h a (by simp)]

lemma rstripAux_id_of_none {p : Char → Bool} {l : List Char}
    (h : ∀ c ∈ l, p c = false) : rstripAux p l = l := by
  induction l with
  | nil => rfl
  | cons a t ih =>
    have ht : rstripAux p t = t := ih (fun c hc => h c (by simp [hc]))
    cases t with
    | nil => simp [rstripAux, h a (by simp)]
    | cons b u => rw [rstripAux, ht]

lemma pyStrip_id_of_none {p : Char → Bool} {l : List Char}
    (h : ∀ c ∈ l, p c = false) : pyStrip p l = l := by
  rw [pyStrip, dropWhile_id_of_none h, rstripAux_id_of_none h]

lemma collapseAux_id_of_none {p : Char → Bool} {r : Char} {l : List Char}
    (h : ∀ c ∈ l, p c = false) : ∀ b, collapseAux p r b l = l := by
  induction l with
  | nil => intro b; rfl
  | cons a t ih =>
    intro b
    rw [collapseAux]
    simp [h a (by simp), ih (fun c hc => h c (by simp [hc]))]

/-- On a string with no two adjacent underscores, collapsing underscore
runs is the identity.  The conjunction carries the in-run flag invariant. -/
lemma collapseAux_isU_id {l : List Char} (h : noAdjU l = true) :
    collapseAux isU '_' false l = l := by
  suffices h2 : ∀ m : List Char, noAdjU m = true →
      (collapseAux isU '_' false m = m ∧
        ((∀ c, m.head? = some c → isU c = false) → collapseAux isU '_' true m = m)) by
    exact (h2 l h).1
  intro m
  induction m with
  | nil => intro _; exact ⟨rfl, fun _ => rfl⟩
  | cons a t ih =>
    intro hm
    have ht := noAdjU_tail hm
    obtain ⟨ih1, ih2⟩ := ih ht
    by_cases ha : isU a = true
    · have hhead : ∀ c, t.head? = some c → isU c = false := by
        intro c hc
        cases t with
        | nil => simp at hc
        | cons b u =>
          simp at hc
          subst hc
          simp [noAdjU, ha] at hm
          exact hm.1
      constructor
      · rw [collapseAux]
        simp only [ha, if_true]
        rw [ih2 hhead, char_eq_of_isU ha]
        simp
      · intro hc
        have := hc a rfl
        rw [ha] at this
        exact absurd this (by simp)
    · have ha' : isU a = false := by simp at ha; simp [ha]
      constructor
      · rw [collapseAux]
        simp [ha', ih1]
      · intro _
        rw [collapseAux]
        simp [ha', ih1]

/-! ### The invariants hold of every `normalizeChars` output -/

lemma mem_collapseAux {p : Char → Bool} {r : Char} :
    ∀ (l : List Char) (b : Bool) (c : Char),
      c ∈ collapseAux p r b l → c = r ∨ c ∈ l := by
  intro l
  induction l with
  | nil => intro b c hc; simp [collapseAux] at hc
  | cons a t ih =>
    intro b c hc
    rw [collapseAux] at hc
    by_cases hp : p a = true
    · rw [if_pos hp] at hc
      cases b with
      | false =>
        rw [if_neg (by simp)] at hc
        rcases List.mem_cons.mp hc with h1 | h1
        · exact Or.inl h1
        · rcases ih true c h1 with h2 | h2
          · exact Or.inl h2
          · exact Or.inr (List.mem_cons_of_mem a h2)
      | true =>
        rw [if_pos rfl] at hc
        rcases ih true c hc with h2 | h2
        · exact Or.inl h2
        · exact Or.inr (List.mem_cons_of_mem a h2)
    · rw [if_neg hp] at hc
      rcases List.mem_cons.mp hc with h1 | h1
      · exact Or.inr (by simp [h1])
      · rcases ih false c h1 with h2 | h2
        · exact Or.inl h2
        · exact Or.inr (List.mem_cons_of_mem a h2)

lemma noAdjU_cons_of_head {x : Char} {l : List Char}
    (h : ∀ c, l.head? = some c → (isU x && isU c) = false)
    (hl : noAdjU l = true) : noAdjU (x :: l) = true := by
  cases l with
  | nil => rfl
  | cons b u =>
    have hb := h b rfl
    rw [noAdjU, hb, hl]
    rfl

lemma head?_collapseAux_true {l : List Char} :
    ∀ c, (collapseAux isU '_' true l).head? = some c → isU c = false := by
  induction l with
  | nil => intro c hc; simp [collapseAux] at hc
  | cons a t ih =>
    intro c hc
    rw [collapseAux] at hc
    by_cases hp : isU a = true
    · rw [if_pos hp, if_pos rfl] at hc
      exact ih c hc
    · rw [if_neg hp] at hc
      simp at hc
      subst hc
      simpa using hp

lemma noAdjU_collapseAux {l : List Char} : ∀ b, noAdjU (collapseAux isU '_' b l) = true := by
  induction l with
  | nil => intro b; rfl
  | cons a t ih =>
    intro b
    rw [collapseAux]
    by_cases hp : isU a = true
    · rw [if_pos hp]
      cases b with
      | true => exact ih true
      | false =>
        rw [if_neg (by simp)]
        refine noAdjU_cons_of_head ?_ (ih true)
        intro c hc
        rw [head?_collapseAux_true c hc]
        simp
    · rw [if_neg hp]
      refine noAdjU_cons_of_head ?_ (ih false)
      intro c _
      have hpa : isU a = false := by simpa using hp
      rw [hpa]
      simp

lemma noAdjU_take : ∀ (n : ℕ) (l : List Char), noAdjU l = true → noAdjU (l.take n) = true := by
  intro n
  induction n with
  | zero => intro l _; rfl
  | succ m ih =>
    intro l hl
    cases l with
    | nil => rfl
    | cons a t =>
      rw [List.take_succ_cons]
      refine noAdjU_cons_of_head ?_ (ih t (noAdjU_tail hl))
      intro c hc
      cases t with
      | nil => simp at hc
      | cons b u =>
        cases m with
        | zero => simp at hc
        | succ k =>
          rw [List.take_succ_cons] at hc
          simp at hc
          subst hc
          rw [noAdjU] at hl
          cases hia : isU a <;> cases hib : isU b <;> simp [hia, hib] at hl ⊢

lemma noAdjU_dropWhile {p : Char → Bool} :
    ∀ {l : List Char}, noAdjU l = true → noAdjU (l.dropWhile p) = true := by
  intro l
  induction l with
  | nil => intro _; rfl
  | cons a t ih =>
    intro hl
    rw [List.dropWhile_cons]
    by_cases hp : p a = true
    · rw [if_pos hp]
      exact ih (noAdjU_tail hl)
    · rw [if_neg hp]
      exact hl

lemma rstripAux_eq_take {p : Char → Bool} :
    ∀ l : List Char, ∃ n, rstripAux p l = l.take n := by
  intro l
  induction l with
  | nil => exact ⟨0, rfl⟩
  | cons a t ih =>
    obtain ⟨n, hn⟩ := ih
    cases h : rstripAux p t with
    | nil =>
      rw [rstripAux, h]
      by_cases hp : p a = true
      · exact ⟨0, by simp [hp]⟩
      · exact ⟨1, by simp [hp]⟩
    | cons d ds =>
      refine ⟨n + 1, ?_⟩
      rw [rstripAux, h, List.take_succ_cons, ← hn, h]

lemma noAdjU_rstripAux {p : Char → Bool} {l : List Char} (hl : noAdjU l = true) :
    noAdjU (rstripAux p l) = true := by
  obtain ⟨n, hn⟩ := rstripAux_eq_take (p := p) l
  rw [hn]
  exact noAdjU_take n l hl

lemma mem_rstripAux {p : Char → Bool} {l : List Char} {c : Char}
    (hc : c ∈ rstripAux p l) : c ∈ l := by
  obtain ⟨n, hn⟩ := rstripAux_eq_take (p := p) l
  rw [hn] at hc
  exact List.take_subset n l hc

lemma mem_dropWhileSub {p : Char → Bool} :
    ∀ {l : List Char} {c : Char}, c ∈ l.dropWhile p → c ∈ l := by
  intro l
  induction l with
  | nil => intro c hc; simp at hc
  | cons a t ih =>
    intro c hc
    rw [List.dropWhile_cons] at hc
    by_cases hp : p a = true
    · rw [if_pos hp] at hc
      exact List.mem_cons_of_mem a (ih hc)
    · rw [if_neg hp] at hc
      exact hc

lemma head?_dropWhile_false {p : Char → Bool} :
    ∀ {l : List Char} {c : Char}, (l.dropWhile p).head? = some c → p c = false := by
  intro l
  induction l with
  | nil => intro c hc; simp at hc
  | cons a t ih =>
    intro c hc
    rw [List.dropWhile_cons] at hc
    by_cases hp : p a = true
    · rw [if_pos hp] at hc
      exact ih hc
    · rw [if_neg hp] at hc
      simp at hc
      subst hc
      simpa using hp

lemma head?_rstripAux {p : Char → Bool} {l : List Char} {c : Char}
    (hc : (rstripAux p l).head? = some c) : l.head? = some c := by
  obtain ⟨n, hn⟩ := rstripAux_eq_take (p := p) l
  rw [hn] at hc
  cases n with
  | zero => simp at hc
  | succ m =>
    cases l with
    | nil => simp at hc
    | cons a t => simpa using hc

lemma getLast?_rstripAux_false {p : Char → Bool} :
    ∀ {l : List Char} {c : Char}, (rstripAux p l).getLast? = some c → p c = false := by
  intro l
  induction l with
  | nil => intro c hc; simp [rstripAux] at hc
  | cons a t ih =>
    intro c hc
    rw [rstripAux] at hc
    cases h : rstripAux p t with
    | nil =>
      rw [h] at hc
      by_cases hp : p a = true
      · rw [if_pos hp] at hc
        simp at hc
      · rw [if_neg hp] at hc
        simp at hc
        subst hc
        simpa using hp
    | cons d ds =>
      rw [h] at hc
      rw [List.getLast?_cons_cons] at hc
      rw [← h] at hc
      exact ih hc

/-! ### Identity of the strip passes on invariant-satisfying strings -/

lemma dropWhile_id_of_head {p : Char → Bool} {l : List Char}
    (h : ∀ c, l.head? = some c → p c = false) : l.dropWhile p = l := by
  cases l with
  | nil => rfl
  | cons a t =>
    rw [List.dropWhile]
    simp [h a rfl]

lemma rstripAux_id_of_last {p : Char → Bool} :
    ∀ {l : List Char}, (∀ c, l.getLast? = some c → p c = false) → rstripAux p l = l := by
  intro l
  induction l with
  | nil => intro _; rfl
  | cons a t ih =>
    intro h
    cases t with
    | nil =>
      have := h a rfl
      simp [rstripAux, this]
    | cons b u =>
      have ht : rstripAux p (b :: u) = b :: u := by
        refine ih ?_
        intro c hc
        refine h c ?_
        rw [List.getLast?_cons_cons]
        exact hc
      rw [rstripAux, ht]

/-- Every output of `normalizeChars` consists of allowed characters only,
has no two adjacent underscores, and neither starts nor ends with an
underscore. -/
lemma normalizeChars_invariants (l : List Char) :
    (∀ c ∈ normalizeChars l, isAllowed c = true) ∧
      noAdjU (normalizeChars l) = true ∧
      (∀ c, (normalizeChars l).head? = some c → isU c = false) ∧
      (∀ c, (normalizeChars l).getLast? = some c → isU c = false) := by
  rw [normalizeChars, pyStrip]
  set s4 := (collapseRuns isSepChar '_'
      (pyStrip isPySpace (l.map asciiLower))).filter isAllowed with hs4
  have hall4 : ∀ c ∈ s4, isAllowed c = true := by
    intro c hc
    exact List.of_mem_filter hc
  set s5 := collapseRuns isU '_' s4 with hs5
  have hall5 : ∀ c ∈ s5, isAllowed c = true := by
    intro c hc
    rcases mem_collapseAux s4 false c hc with h | h
    · subst h; rfl
    · exact hall4 c h
  have hadj5 : noAdjU s5 = true := noAdjU_collapseAux false
  refine ⟨?_, ?_, ?_, ?_⟩
  · intro c hc
    exact hall5 c (mem_dropWhileSub (mem_rstripAux hc))
  · exact noAdjU_rstripAux (noAdjU_dropWhile hadj5)
  · intro c hc
    exact head?_dropWhile_false (head?_rstripAux hc)
  · intro c hc
    exact getLast?_rstripAux_false hc

/-- `normalizeChars` is the identity on strings satisfying its output
invariants. -/
lemma normalizeChars_fixed {m : List Char}
    (hall : ∀ c ∈ m, isAllowed c = true)
    (hadj : noAdjU m = true)
    (hhd : ∀ c, m.head? = some c → isU c = false)
    (hlast : ∀ c, m.getLast? = some c → isU c = false) :
    normalizeChars m = m := by
  rw [normalizeChars, collapseRuns, collapseRuns,
    map_asciiLower_id hall,
    pyStrip_id_of_none (fun c hc => allowed_not_space (hall c hc)),
    collapseAux_id_of_none (fun c hc => allowed_not_sep (hall c hc)) false,
    List.filter_eq_self.mpr hall,
    collapseAux_isU_id hadj,
    pyStrip, dropWhile_id_of_head hhd, rstripAux_id_of_last hlast]

/-- Idempotence on character lists. -/
lemma normalizeChars_idem (l : List Char) :
    normalizeChars (normalizeChars l) = normalizeChars l := by
  obtain ⟨h1, h2, h3, h4⟩ := normalizeChars_invariants l
  exact normalizeChars_fixed h1 h2 h3 h4

/-- Idempotence at the `String` level. -/
lemma normalize_column_name_idem (x : String) :
    normalize_column_name (normalize_column_name x) = normalize_column_name x := by
  show String.mk (normalizeChars (String.mk (normalizeChars x.data)).data) =
    String.mk (normalizeChars x.data)
  rw [show (String.mk (normalizeChars x.data)).data = normalizeChars x.data from rfl]
  rw [normalizeChars_idem]

/-- **C2.** Column-identifier normalization (`normalize_column_name` in
`ingest.py`) is idempotent — `normalize(normalize(x)) = normalize(x)` for
every string `x` — and on the concrete example `" Total Spend! "` it
produces `"total_spend"`. -/
theorem C2_normalize_idempotent :
    (∀ x : String, normalize_column_name (normalize_column_name x) = normalize_column_name x) ∧
      normalize_column_name " Total Spend! " = "total_spend" := by
  exact ⟨fun x => normalize_column_name_idem x, by decide⟩

/-- Witness: the idempotence theorem applied at the concrete identifier
`" Total Spend! "`. -/
theorem C2_normalize_idempotent_witness :
    normalize_column_name (normalize_column_name " Total Spend! ") =
      normalize_column_name " Total Spend! " :=
  C2_normalize_idempotent.1 " Total Spend! "

/-! ## Tables (pandas DataFrames)

A DataFrame is a list of column names together with a list of rows; a cell
is a rational number, a string, or null (NaN / missing). -/

inductive Cell where
  | num (q : ℚ)
  | str (s : String)
  | null
  deriving DecidableEq, Repr

structure DataFrame where
  cols : List String
  rows : List (List Cell)
  deriving DecidableEq, Repr

/-- Well-formedness: every row has one cell per column. -/
def DataFrame.WF (df : DataFrame) : Prop :=
  ∀ r ∈ df.rows, r.length = df.cols.length

instance (df : DataFrame) : Decidable df.WF :=
  inferInstanceAs (Decidable (∀ r ∈ df.rows, r.length = df.cols.length))

instance {ε α : Type} [DecidableEq ε] [DecidableEq α] : DecidableEq (Except ε α) := fun a b =>
  match a, b with
  | Except.error e, Except.error f =>
    decidable_of_iff (e = f) ⟨fun h => by rw [h], fun h => by injection h⟩
  | Except.error _, Except.ok _ => isFalse (fun h => Except.noConfusion h)
  | Except.ok _, Except.error _ => isFalse (fun h => Except.noConfusion h)
  | Except.ok x, Except.ok y =>
    decidable_of_iff (x = y) ⟨fun h => by rw [h], fun h => by injection h⟩

/-- Index of the first column with the given name. -/
def colIndex : List String → String → Option ℕ
  | [], _ => none
  | c :: cs, name => if c = name then some 0 else (colIndex cs name).map (· + 1)

/-- Cell of a row at an optional column position (null when absent). -/
def getCell (row : List Cell) : Option ℕ → Cell
  | some j => row.getD j Cell.null
  | none => Cell.null

/-- The cells of the named column, top to bottom (null where a row is too
short or the column is absent). -/
def DataFrame.col (df : DataFrame) (c : String) : List Cell :=
  df.rows.map (fun r => getCell r (colIndex df.cols c))

/-- `df[c] = cells` — pandas column assignment: replace the column if the
name exists, otherwise append it on the right. -/
def setCol (df : DataFrame) (c : String) (cells : List Cell) : DataFrame :=
  match colIndex df.cols c with
  | some j => ⟨df.cols, List.zipWith (fun r x => r.set j x) df.rows cells⟩
  | none => ⟨df.cols ++ [c], List.zipWith (fun r x => r ++ [x]) df.rows cells⟩

/-- `df[c] = df[c].map f` — in-place cell transformation of one column;
the identity when the column is absent. -/
def mapCol (df : DataFrame) (c : String) (f : Cell → Cell) : DataFrame :=
  match colIndex df.cols c with
  | some j => ⟨df.cols, df.rows.map (fun r => r.set j (f (r.getD j Cell.null)))⟩
  | none => df

/-! ### Positional helper lemmas -/

lemma colIndex_lt_length :
    ∀ {cols : List String} {c : String} {j : ℕ},
      colIndex cols c = some j → j < cols.length ∧ cols.getD j "" = c := by
  intro cols
  induction cols with
  | nil => intro c j h; simp [colIndex] at h
  | cons a t ih =>
    intro c j h
    rw [colIndex] at h
    by_cases ha : a = c
    · rw [if_pos ha] at h
      simp at h
      subst h
      simpa using ha
    · rw [if_neg ha] at h
      cases hj : colIndex t c with
      | none => rw [hj] at h; simp at h
      | some k =>
        rw [hj] at h
        simp at h
        subst h
        obtain ⟨h1, h2⟩ := ih hj
        constructor
        · simpa using h1
        · simpa using h2

lemma colIndex_isSome_iff : ∀ (cols : List String) (c : String),
    (colIndex cols c).isSome = true ↔ c ∈ cols := by
  intro cols
  induction cols with
  | nil => intro c; simp [colIndex]
  | cons a t ih =>
    intro c
    rw [colIndex]
    by_cases ha : a = c
    · simp [ha]
    · rw [if_neg ha]
      have hmap : ((colIndex t c).map (· + 1)).isSome = (colIndex t c).isSome := by
        cases colIndex t c <;> rfl
      rw [hmap, ih c]
      constructor
      · intro h
        exact List.mem_cons_of_mem a h
      · intro h
        rcases List.mem_cons.mp h with h1 | h1
        · exact absurd h1.symm ha
        · exact h1

lemma colIndex_append_of_some {cols : List String} {c : String} {j : ℕ}
    (h : colIndex cols c = some j) (l : List String) :
    colIndex (cols ++ l) c = some j := by
  induction cols generalizing j with
  | nil => simp [colIndex] at h
  | cons a t ih =>
    rw [colIndex] at h
    rw [List.cons_append, colIndex]
    by_cases ha : a = c
    · rw [if_pos ha] at h ⊢
      exact h
    · rw [if_neg ha] at h ⊢
      cases hj : colIndex t c with
      | none => rw [hj] at h; simp at h
      | some k =>
        rw [hj] at h
        simp at h
        subst h
        rw [ih hj]
        rfl

lemma colIndex_append_self {cols : List String} {c : String}
    (h : colIndex cols c = none) : colIndex (cols ++ [c]) c = some cols.length := by
  induction cols with
  | nil => simp [colIndex]
  | cons a t ih =>
    rw [colIndex] at h
    rw [List.cons_append, colIndex]
    by_cases ha : a = c
    · rw [if_pos ha] at h
      simp at h
    · rw [if_neg ha] at h ⊢
      cases hj : colIndex t c with
      | some k => rw [hj] at h; simp at h
      | none =>
        rw [ih hj]
        simp

lemma colIndex_append_of_ne {cols : List String} {c x : String}
    (h : colIndex cols c = none) (hne : x ≠ c) :
    colIndex (cols ++ [x]) c = none := by
  induction cols with
  | nil => simp [colIndex, hne]
  | cons a t ih =>
    rw [colIndex] at h
    rw [List.cons_append, colIndex]
    by_cases ha : a = c
    · rw [if_pos ha] at h; simp at h
    · rw [if_neg ha] at h ⊢
      cases hj : colIndex t c with
      | some k => rw [hj] at h; simp at h
      | none => rw [ih hj]; rfl

lemma colIndex_none_iff {cols : List String} {c : String} :
    colIndex cols c = none ↔ c ∉ cols := by
  rw [← colIndex_isSome_iff]
  cases h : colIndex cols c <;> simp [h]

lemma getD_set_self {α : Type} (d x : α) :
    ∀ (l : List α) (j : ℕ), j < l.length → (l.set j x).getD j d = x := by
  intro l
  induction l with
  | nil => intro j h; simp at h
  | cons a t ih =>
    intro j h
    cases j with
    | zero => rfl
    | succ k =>
      rw [List.set_cons_succ]
      simp only [List.getD_cons_succ]
      exact ih k (by simpa using h)

lemma getD_set_ne {α : Type} (d x : α) :
    ∀ (l : List α) (i j : ℕ), i ≠ j → (l.set i x).getD j d = l.getD j d := by
  intro l
  induction l with
  | nil => intro i j _; simp
  | cons a t ih =>
    intro i j hne
    cases i with
    | zero =>
      cases j with
      | zero => exact absurd rfl hne
      | succ k => rw [List.set_cons_zero]; simp
    | succ m =>
      cases j with
      | zero => rw [List.set_cons_succ]; simp
      | succ k =>
        rw [List.set_cons_succ]
        simp only [List.getD_cons_succ]
        exact ih m k (fun h => hne (by rw [h]))

lemma getD_append_left {α : Type} (d : α) :
    ∀ (l m : List α) (j : ℕ), j < l.length → (l ++ m).getD j d = l.getD j d := by
  intro l
  induction l with
  | nil => intro m j h; simp at h
  | cons a t ih =>
    intro m j h
    cases j with
    | zero => rfl
    | succ k =>
      rw [List.cons_append]
      simp only [List.getD_cons_succ]
      exact ih m k (by simpa using h)

lemma getD_append_at {α : Type} (d x : α) :
    ∀ (l : List α), (l ++ [x]).getD l.length d = x := by
  intro l
  induction l with
  | nil => rfl
  | cons a t ih =>
    rw [List.cons_append]
    simp only [List.length_cons, List.getD_cons_succ]
    exact ih

/-! ### Column access after `setCol` / `mapCol` -/

lemma map_null_const (l : List (List Cell)) :
    l.map (fun _ => Cell.null) = List.replicate l.length Cell.null := by
  induction l with
  | nil => rfl
  | cons a t ih => simp [List.replicate_succ, ih]

lemma zipWith_set_getD (j : ℕ) (d : Cell) :
    ∀ (rows : List (List Cell)) (cells : List Cell),
      cells.length = rows.length → (∀ r ∈ rows, j < r.length) →
      (List.zipWith (fun r x => r.set j x) rows cells).map (fun r => r.getD j d) = cells := by
  intro rows
  induction rows with
  | nil =>
    intro cells h _
    simp at h
    simp [h]
  | cons r t ih =>
    intro cells h hlen
    cases cells with
    | nil => simp at h
    | cons x xs =>
      simp only [List.zipWith_cons_cons, List.map_cons]
      rw [getD_set_self d x r j (hlen r (by simp))]
      rw [ih xs (by simpa using h) (fun r hr => hlen r (by simp [hr]))]

lemma zipWith_set_getD_ne (i j : ℕ) (d : Cell) (hne : i ≠ j) :
    ∀ (rows : List (List Cell)) (cells : List Cell),
      cells.length = rows.length →
      (List.zipWith (fun r x => r.set i x) rows cells).map (fun r => r.getD j d) =
        rows.map (fun r => r.getD j d) := by
  intro rows
  induction rows with
  | nil => intro cells _; simp
  | cons r t ih =>
    intro cells h
    cases cells with
    | nil => simp at h
    | cons x xs =>
      simp only [List.zipWith_cons_cons, List.map_cons]
      rw [getD_set_ne d x r i j hne]
      rw [ih xs (by simpa using h)]

lemma zipWith_append_getD_at (d : Cell) (n : ℕ) :
    ∀ (rows : List (List Cell)) (cells : List Cell),
      cells.length = rows.length → (∀ r ∈ rows, r.length = n) →
      (List.zipWith (fun r x => r ++ [x]) rows cells).map (fun r => r.getD n d) = cells := by
  intro rows
  induction rows with
  | nil =>
    intro cells h _
    simp at h
    simp [h]
  | cons r t ih =>
    intro cells h hlen
    cases cells with
    | nil => simp at h
    | cons x xs =>
      simp only [List.zipWith_cons_cons, List.map_cons]
      have hr : r.length = n := hlen r (by simp)
      rw [← hr, getD_append_at]
      rw [hr, ih xs (by simpa using h) (fun r hr2 => hlen r (by simp [hr2]))]

lemma zipWith_append_getD_lt (d : Cell) (j n : ℕ) (hj : j < n) :
    ∀ (rows : List (List Cell)) (cells : List Cell),
      cells.length = rows.length → (∀ r ∈ rows, r.length = n) →
      (List.zipWith (fun r x => r ++ [x]) rows cells).map (fun r => r.getD j d) =
        rows.map (fun r => r.getD j d) := by
  intro rows
  induction rows with
  | nil => intro cells _ _; simp
  | cons r t ih =>
    intro cells h hlen
    cases cells with
    | nil => simp at h
    | cons x xs =>
      simp only [List.zipWith_cons_cons, List.map_cons]
      rw [getD_append_left d r [x] j (by rw [hlen r (by simp)]; exact hj)]
      rw [ih xs (by simpa using h) (fun r hr2 => hlen r (by simp [hr2]))]

lemma setCol_rows_length {df : DataFrame} {c : String} {cells : List Cell}
    (h : cells.length = df.rows.length) :
    (setCol df c cells).rows.length = df.rows.length := by
  rw [setCol]
  cases colIndex df.cols c <;> simp [h]

lemma mem_zipWith_imp {α β γ : Type} {f : α → β → γ} :
    ∀ {l : List α} {m : List β} {c : γ},
      c ∈ List.zipWith f l m → ∃ a ∈ l, ∃ b ∈ m, c = f a b := by
  intro l
  induction l with
  | nil => intro m c hc; simp at hc
  | cons a t ih =>
    intro m c hc
    cases m with
    | nil => simp at hc
    | cons b u =>
      rw [List.zipWith_cons_cons] at hc
      rcases List.mem_cons.mp hc with h1 | h1
      · exact ⟨a, by simp, b, by simp, h1⟩
      · obtain ⟨a0, ha0, b0, hb0, hc0⟩ := ih h1
        exact ⟨a0, by simp [ha0], b0, by simp [hb0], hc0⟩

lemma setCol_WF {df : DataFrame} {c : String} {cells : List Cell}
    (hwf : df.WF) (_h : cells.length = df.rows.length) : (setCol df c cells).WF := by
  rw [setCol]
  cases hj : colIndex df.cols c with
  | some j =>
    intro r hr
    simp only at hr
    obtain ⟨a, ha, _, _, rfl⟩ := mem_zipWith_imp hr
    simp only [List.length_set]
    exact hwf a ha
  | none =>
    intro r hr
    simp only at hr
    obtain ⟨a, ha, _, _, rfl⟩ := mem_zipWith_imp hr
    simp only [List.length_append, List.length_cons, List.length_nil]
    rw [hwf a ha]

lemma mem_setCol_cols_self {df : DataFrame} {c : String} {cells : List Cell} :
    c ∈ (setCol df c cells).cols := by
  rw [setCol]
  cases hj : colIndex df.cols c with
  | some j => exact colIndex_isSome_iff df.cols c |>.mp (by simp [hj])
  | none => simp

lemma mem_setCol_cols_of_mem {df : DataFrame} {c c' : String} {cells : List Cell}
    (h : c' ∈ df.cols) : c' ∈ (setCol df c cells).cols := by
  rw [setCol]
  cases colIndex df.cols c with
  | some j => exact h
  | none => simp [h]

lemma setCol_col_self {df : DataFrame} {c : String} {cells : List Cell}
    (hwf : df.WF) (h : cells.length = df.rows.length) :
    (setCol df c cells).col c = cells := by
  rw [setCol]
  cases hj : colIndex df.cols c with
  | some j =>
    rw [DataFrame.col]
    simp only
    rw [hj]
    simp only [getCell]
    exact zipWith_set_getD j Cell.null df.rows cells h
      (fun r hr => by rw [hwf r hr]; exact (colIndex_lt_length hj).1)
  | none =>
    rw [DataFrame.col]
    simp only
    rw [colIndex_append_self hj]
    simp only [getCell]
    exact zipWith_append_getD_at Cell.null df.cols.length df.rows cells h hwf

lemma setCol_col_other {df : DataFrame} {c c' : String} {cells : List Cell}
    (hwf : df.WF) (h : cells.length = df.rows.length) (hne : c' ≠ c) :
    (setCol df c cells).col c' = df.col c' := by
  rw [setCol]
  cases hj : colIndex df.cols c with
  | some j =>
    rw [DataFrame.col, DataFrame.col]
    simp only
    cases hj' : colIndex df.cols c' with
    | some k =>
      have hkj : j ≠ k := by
        intro hjk
        subst hjk
        have e1 := (colIndex_lt_length hj).2
        have e2 := (colIndex_lt_length hj').2
        rw [e1] at e2
        exact hne e2.symm
      simp only [getCell]
      exact zipWith_set_getD_ne j k Cell.null hkj df.rows cells h
    | none =>
      simp only [getCell]
      rw [map_null_const, map_null_const]
      rw [List.length_zipWith, h, Nat.min_self]
  | none =>
    rw [DataFrame.col, DataFrame.col]
    simp only
    cases hj' : colIndex df.cols c' with
    | some k =>
      rw [colIndex_append_of_some hj' [c]]
      simp only [getCell]
      exact zipWith_append_getD_lt Cell.null k df.cols.length (colIndex_lt_length hj').1
        df.rows cells h hwf
    | none =>
      rw [colIndex_append_of_ne hj' (fun hcc => hne hcc.symm)]
      simp only [getCell]
      rw [map_null_const, map_null_const]
      rw [List.length_zipWith, h, Nat.min_self]

lemma mapCol_cols {df : DataFrame} {c : String} {f : Cell → Cell} :
    (mapCol df c f).cols = df.cols := by
  rw [mapCol]
  cases colIndex df.cols c <;> rfl

lemma mapCol_rows_length {df : DataFrame} {c : String} {f : Cell → Cell} :
    (mapCol df c f).rows.length = df.rows.length := by
  rw [mapCol]
  cases colIndex df.cols c <;> simp

lemma mapCol_WF {df : DataFrame} {c : String} {f : Cell → Cell}
    (hwf : df.WF) : (mapCol df c f).WF := by
  rw [mapCol]
  cases colIndex df.cols c with
  | some j =>
    intro r hr
    simp only at hr
    rw [List.mem_map] at hr
    obtain ⟨r0, hr0, hget⟩ := hr
    subst hget
    simp only
    rw [List.length_set]
    exact hwf r0 hr0
  | none => exact hwf

lemma mapCol_col_self {df : DataFrame} {c : String} {f : Cell → Cell}
    (hwf : df.WF) (hc : c ∈ df.cols) :
    (mapCol df c f).col c = (df.col c).map f := by
  rw [mapCol]
  cases hj : colIndex df.cols c with
  | none =>
    rw [← colIndex_isSome_iff df.cols c] at hc
    rw [hj] at hc
    simp at hc
  | some j =>
    rw [DataFrame.col, DataFrame.col]
    simp only
    rw [hj]
    simp only [getCell]
    rw [List.map_map, List.map_map]
    refine List.map_congr_left ?_
    intro r hr
    simp only [Function.comp]
    rw [getD_set_self Cell.null _ r j (by rw [hwf r hr]; exact (colIndex_lt_length hj).1)]

lemma mapCol_col_other {df : DataFrame} {c c' : String} {f : Cell → Cell}
    (hne : c' ≠ c) : (mapCol df c f).col c' = df.col c' := by
  rw [mapCol]
  cases hj : colIndex df.cols c with
  | none => rfl
  | some j =>
    rw [DataFrame.col, DataFrame.col]
    simp only
    cases hj' : colIndex df.cols c' with
    | none =>
      simp only [getCell]
      rw [List.map_map]
      simp only [Function.comp_def]
    | some k =>
      have hkj : j ≠ k := by
        intro hjk
        subst hjk
        have e1 := (colIndex_lt_length hj).2
        have e2 := (colIndex_lt_length hj').2
        rw [e1] at e2
        exact hne e2.symm
      simp only [getCell]
      rw [List.map_map]
      refine List.map_congr_left ?_
      intro r hr
      simp only [Function.comp]
      rw [getD_set_ne Cell.null _ r j k hkj]

/-! ## Transform engine (transform.py) -/

/-- Round to the nearest integer, ties to even — NumPy / Python `round`
semantics, modelled exactly on `ℚ`. -/
def roundHalfEven (x : ℚ) : ℤ :=
  let n := ⌊x⌋
  let f := x - (n : ℚ)
  if f < 1/2 then n
  else if 1/2 < f then n + 1
  else if n % 2 = 0 then n else n + 1

/-- `Series.round(dp)`: round to `dp` decimal places, ties to even. -/
def roundDp (dp : ℕ) (x : ℚ) : ℚ :=
  (roundHalfEven (x * (10 : ℚ) ^ dp) : ℚ) / (10 : ℚ) ^ dp

/-- `pd.to_numeric(.., errors='coerce')` on a cell: keep numbers, turn
everything else into NaN. -/
def toNumericCell : Cell → Cell
  | Cell.num q => Cell.num q
  | _ => Cell.null

/-- The numeric value of a cell, if any. -/
def cellQ : Cell → Option ℚ
  | Cell.num q => some q
  | _ => none

/-- One cell of a derived ratio column:
`(num / den.replace(0, nan) * scale).round(dp)` — null denominator, zero
denominator or null numerator all yield NaN (never an error or infinity). -/
def ratioCell (scale : ℚ) (dp : ℕ) (n d : Cell) : Cell :=
  match cellQ n, cellQ d with
  | some a, some b =>
    if b = 0 then Cell.null else Cell.num (roundDp dp (a / b * scale))
  | _, _ => Cell.null

/-- The columns coerced with `pd.to_numeric(errors='coerce')` by
`compute_derived_metrics` before any ratio is formed. -/
def numericColNames : List String :=
  ["clicks", "impressions", "conversions", "spend", "revenue",
   "visits", "foot_traffic", "unique_visitors", "engagements"]

/-- Coerce each listed column (when present) to numeric. -/
def coerceNumericCols (df : DataFrame) : DataFrame :=
  numericColNames.foldl (fun d c => mapCol d c toNumericCell) df

/-- `df[name] = (df[num] / df[den].replace(0, nan) * scale).round(dp)` when
both source columns are present; otherwise no change. -/
def addRatio (df : DataFrame) (name num den : String) (scale : ℚ) (dp : ℕ) : DataFrame :=
  if num ∈ df.cols ∧ den ∈ df.cols then
    setCol df name (List.zipWith (ratioCell scale dp) (df.col num) (df.col den))
  else df

/-- `compute_derived_metrics` from `transform.py`: coerce the known metric
columns to numeric, then add each derived ratio metric whose source
columns are present (CTR, CPC, CPM, conversion rate, CPA, ROAS,
engagement rate, pages per visit). -/
def compute_derived_metrics (df : DataFrame) : DataFrame :=
  let d0 := coerceNumericCols df
  let d1 := addRatio d0 "ctr" "clicks" "impressions" 100 4
  let d2 := addRatio d1 "cpc" "spend" "clicks" 1 4
  let d3 := addRatio d2 "cpm" "spend" "impressions" 1000 4
  let d4 := addRatio d3 "conversion_rate" "conversions" "clicks" 100 4
  let d5 := addRatio d4 "cpa" "spend" "conversions" 1 4
  let d6 := addRatio d5 "roas" "revenue" "spend" 1 4
  let d7 := addRatio d6 "engagement_rate" "engagements" "impressions" 100 4
  addRatio d7 "pages_per_visit" "visits" "unique_visitors" 1 2

/-! ### Structural lemmas about the derived-metric chain -/

lemma df_col_length {df : DataFrame} {c : String} :
    (df.col c).length = df.rows.length := by
  rw [DataFrame.col, List.length_map]

lemma addRatio_WF {df : DataFrame} {name num den : String} {s : ℚ} {dp : ℕ}
    (hwf : df.WF) : (addRatio df name num den s dp).WF := by
  rw [addRatio]
  by_cases h : num ∈ df.cols ∧ den ∈ df.cols
  · rw [if_pos h]
    exact setCol_WF hwf (by rw [List.length_zipWith, df_col_length, df_col_length, Nat.min_self])
  · rw [if_neg h]
    exact hwf

lemma addRatio_rows_length {df : DataFrame} {name num den : String} {s : ℚ} {dp : ℕ} :
    (addRatio df name num den s dp).rows.length = df.rows.length := by
  rw [addRatio]
  by_cases h : num ∈ df.cols ∧ den ∈ df.cols
  · rw [if_pos h]
    exact setCol_rows_length (by rw [List.length_zipWith, df_col_length, df_col_length, Nat.min_self])
  · rw [if_neg h]

lemma addRatio_cols_mono {df : DataFrame} {name num den c : String} {s : ℚ} {dp : ℕ}
    (h : c ∈ df.cols) : c ∈ (addRatio df name num den s dp).cols := by
  rw [addRatio]
  by_cases h2 : num ∈ df.cols ∧ den ∈ df.cols
  · rw [if_pos h2]
    exact mem_setCol_cols_of_mem h
  · rw [if_neg h2]
    exact h

lemma addRatio_col_other {df : DataFrame} {name num den c : String} {s : ℚ} {dp : ℕ}
    (hwf : df.WF) (hne : c ≠ name) :
    (addRatio df name num den s dp).col c = df.col c := by
  rw [addRatio]
  by_cases h2 : num ∈ df.cols ∧ den ∈ df.cols
  · rw [if_pos h2]
    exact setCol_col_other hwf (by rw [List.length_zipWith, df_col_length, df_col_length, Nat.min_self]) hne
  · rw [if_neg h2]

lemma foldl_mapCol_cols (f : Cell → Cell) :
    ∀ (names : List String) (df : DataFrame),
      (names.foldl (fun d c => mapCol d c f) df).cols = df.cols := by
  intro names
  induction names with
  | nil => intro df; rfl
  | cons a t ih =>
    intro df
    rw [List.foldl_cons, ih, mapCol_cols]

lemma foldl_mapCol_WF (f : Cell → Cell) :
    ∀ (names : List String) (df : DataFrame), df.WF →
      (names.foldl (fun d c => mapCol d c f) df).WF := by
  intro names
  induction names with
  | nil => intro df h; exact h
  | cons a t ih =>
    intro df h
    rw [List.foldl_cons]
    exact ih _ (mapCol_WF h)

lemma foldl_mapCol_rows_length (f : Cell → Cell) :
    ∀ (names : List String) (df : DataFrame),
      (names.foldl (fun d c => mapCol d c f) df).rows.length = df.rows.length := by
  intro names
  induction names with
  | nil => intro df; rfl
  | cons a t ih =>
    intro df
    rw [List.foldl_cons, ih, mapCol_rows_length]

lemma foldl_mapCol_col_of_not_mem (f : Cell → Cell) :
    ∀ (names : List String) (df : DataFrame) (c : String), c ∉ names →
      (names.foldl (fun d c => mapCol d c f) df).col c = df.col c := by
  intro names
  induction names with
  | nil => intro df c _; rfl
  | cons a t ih =>
    intro df c hc
    rw [List.foldl_cons]
    rw [ih _ c (fun h => hc (by simp [h]))]
    exact mapCol_col_other (fun h => hc (by simp [h]))

lemma foldl_mapCol_col_of_mem (f : Cell → Cell) :
    ∀ (names : List String) (df : DataFrame) (c : String),
      names.Nodup → c ∈ names → df.WF → c ∈ df.cols →
      (names.foldl (fun d c => mapCol d c f) df).col c = (df.col c).map f := by
  intro names
  induction names with
  | nil => intro df c _ hc; simp at hc
  | cons a t ih =>
    intro df c hnd hc hwf hmem
    rw [List.foldl_cons]
    by_cases hac : a = c
    · subst hac
      have hnot : a ∉ t := (List.nodup_cons.mp hnd).1
      rw [foldl_mapCol_col_of_not_mem f t _ a hnot]
      exact mapCol_col_self hwf hmem
    · have hct : c ∈ t := by
        rcases List.mem_cons.mp hc with h | h
        · exact absurd h.symm hac
        · exact h
      rw [ih _ c (List.nodup_cons.mp hnd).2 hct (mapCol_WF hwf)
        (by rw [mapCol_cols]; exact hmem)]
      rw [mapCol_col_other (fun h => hac h.symm)]

lemma coerce_cols {df : DataFrame} : (coerceNumericCols df).cols = df.cols :=
  foldl_mapCol_cols toNumericCell numericColNames df

lemma coerce_WF {df : DataFrame} (hwf : df.WF) : (coerceNumericCols df).WF :=
  foldl_mapCol_WF toNumericCell numericColNames df hwf

lemma coerce_col_clicks {df : DataFrame} (hwf : df.WF) (h : "clicks" ∈ df.cols) :
    (coerceNumericCols df).col "clicks" = (df.col "clicks").map toNumericCell :=
  foldl_mapCol_col_of_mem toNumericCell numericColNames df "clicks"
    (by decide) (by decide) hwf h

lemma coerce_col_impressions {df : DataFrame} (hwf : df.WF) (h : "impressions" ∈ df.cols) :
    (coerceNumericCols df).col "impressions" = (df.col "impressions").map toNumericCell :=
  foldl_mapCol_col_of_mem toNumericCell numericColNames df "impressions"
    (by decide) (by decide) hwf h

/-- **C1.** For every table with both a `clicks` and an `impressions`
column, `compute_derived_metrics` adds a `ctr` column whose cells are
`clicks / impressions × 100` rounded (half-to-even) to 4 decimal places,
with a null cell whenever the impressions value is zero or either value is
missing or non-numeric — and on the spec's concrete rows,
`{clicks: 50, impressions: 1000}` yields `5.0` and
`{clicks: 10, impressions: 0}` yields null (no error, no infinity). -/
theorem C1_ctr_derived_metric (df : DataFrame) (hwf : df.WF)
    (hc : "clicks" ∈ df.cols) (hi : "impressions" ∈ df.cols) :
    ("ctr" ∈ (compute_derived_metrics df).cols ∧
      (compute_derived_metrics df).col "ctr" =
        List.zipWith (fun c i =>
          match c, i with
          | Cell.num a, Cell.num b =>
            if b = 0 then Cell.null else Cell.num (roundDp 4 (a / b * 100))
          | _, _ => Cell.null)
          (df.col "clicks") (df.col "impressions")) ∧
      (compute_derived_metrics
          ⟨["clicks", "impressions"],
            [[Cell.num 50, Cell.num 1000], [Cell.num 10, Cell.num 0]]⟩).col "ctr" =
        [Cell.num 5, Cell.null] := by
  have hwf0 : (coerceNumericCols df).WF := coerce_WF hwf
  have hc0 : "clicks" ∈ (coerceNumericCols df).cols := by rw [coerce_cols]; exact hc
  have hi0 : "impressions" ∈ (coerceNumericCols df).cols := by rw [coerce_cols]; exact hi
  set d0 := coerceNumericCols df with hd0
  have hcells :
      List.zipWith (ratioCell 100 4) (d0.col "clicks") (d0.col "impressions") =
        List.zipWith (fun c i =>
          match c, i with
          | Cell.num a, Cell.num b =>
            if b = 0 then Cell.null else Cell.num (roundDp 4 (a / b * 100))
          | _, _ => Cell.null)
          (df.col "clicks") (df.col "impressions") := by
    rw [hd0, coerce_col_clicks hwf hc, coerce_col_impressions hwf hi]
    rw [List.zipWith_map_left, List.zipWith_map_right]
    refine congrFun (congrFun ?_ (df.col "clicks")) (df.col "impressions")
    refine congrArg List.zipWith ?_
    funext a b
    cases a <;> cases b <;> rfl
  have hd1 : (addRatio d0 "ctr" "clicks" "impressions" 100 4).col "ctr" =
      List.zipWith (ratioCell 100 4) (d0.col "clicks") (d0.col "impressions") := by
    rw [addRatio, if_pos ⟨hc0, hi0⟩]
    exact setCol_col_self hwf0
      (by rw [List.length_zipWith, df_col_length, df_col_length, Nat.min_self])
  have hmem1 : "ctr" ∈ (addRatio d0 "ctr" "clicks" "impressions" 100 4).cols := by
    rw [addRatio, if_pos ⟨hc0, hi0⟩]
    exact mem_setCol_cols_self
  have hwf1 : (addRatio d0 "ctr" "clicks" "impressions" 100 4).WF := addRatio_WF hwf0
  set d1 := addRatio d0 "ctr" "clicks" "impressions" 100 4 with hd1def
  have hconc : (compute_derived_metrics
      ⟨["clicks", "impressions"],
        [[Cell.num 50, Cell.num 1000], [Cell.num 10, Cell.num 0]]⟩).col "ctr" =
      [Cell.num 5, Cell.null] := by
    have h1 : (compute_derived_metrics
        ⟨["clicks", "impressions"],
          [[Cell.num 50, Cell.num 1000], [Cell.num 10, Cell.num 0]]⟩).col "ctr" =
        [Cell.num (roundDp 4 (50 / 1000 * 100)), Cell.null] := by rfl
    have h2 : roundDp 4 ((50 : ℚ) / 1000 * 100) = 5 := by
      norm_num [roundDp, roundHalfEven]
    rw [h1, h2]
  refine ⟨⟨?_, ?_⟩, hconc⟩
  · show "ctr" ∈ (addRatio (addRatio (addRatio (addRatio (addRatio (addRatio
      (addRatio d1 "cpc" "spend" "clicks" 1 4) "cpm" "spend" "impressions" 1000 4)
      "conversion_rate" "conversions" "clicks" 100 4) "cpa" "spend" "conversions" 1 4)
      "roas" "revenue" "spend" 1 4) "engagement_rate" "engagements" "impressions" 100 4)
      "pages_per_visit" "visits" "unique_visitors" 1 2).cols
    exact addRatio_cols_mono (addRatio_cols_mono (addRatio_cols_mono (addRatio_cols_mono
      (addRatio_cols_mono (addRatio_cols_mono (addRatio_cols_mono hmem1))))))
  · show (addRatio (addRatio (addRatio (addRatio (addRatio (addRatio
      (addRatio d1 "cpc" "spend" "clicks" 1 4) "cpm" "spend" "impressions" 1000 4)
      "conversion_rate" "conversions" "clicks" 100 4) "cpa" "spend" "conversions" 1 4)
      "roas" "revenue" "spend" 1 4) "engagement_rate" "engagements" "impressions" 100 4)
      "pages_per_visit" "visits" "unique_visitors" 1 2).col "ctr" = _
    rw [addRatio_col_other (addRatio_WF (addRatio_WF (addRatio_WF (addRatio_WF
        (addRatio_WF (addRatio_WF hwf1)))))) (by decide)]
    rw [addRatio_col_other (addRatio_WF (addRatio_WF (addRatio_WF (addRatio_WF
        (addRatio_WF hwf1))))) (by decide)]
    rw [addRatio_col_other (addRatio_WF (addRatio_WF (addRatio_WF (addRatio_WF hwf1)))) (by decide)]
    rw [addRatio_col_other (addRatio_WF (addRatio_WF (addRatio_WF hwf1))) (by decide)]
    rw [addRatio_col_other (addRatio_WF (addRatio_WF hwf1)) (by decide)]
    rw [addRatio_col_other (addRatio_WF hwf1) (by decide)]
    rw [addRatio_col_other hwf1 (by decide)]
    rw [hd1def, hd1, hcells]

/-- Witness: C1 applied to the spec's two concrete rows. -/
theorem C1_ctr_derived_metric_witness :
    ("ctr" ∈ (compute_derived_metrics
        ⟨["clicks", "impressions"],
          [[Cell.num 50, Cell.num 1000], [Cell.num 10, Cell.num 0]]⟩).cols ∧
      (compute_derived_metrics
        ⟨["clicks", "impressions"],
          [[Cell.num 50, Cell.num 1000], [Cell.num 10, Cell.num 0]]⟩).col "ctr" =
        List.zipWith (fun c i =>
          match c, i with
          | Cell.num a, Cell.num b =>
            if b = 0 then Cell.null else Cell.num (roundDp 4 (a / b * 100))
          | _, _ => Cell.null)
          ((⟨["clicks", "impressions"],
            [[Cell.num 50, Cell.num 1000], [Cell.num 10, Cell.num 0]]⟩ : DataFrame).col "clicks")
          ((⟨["clicks", "impressions"],
            [[Cell.num 50, Cell.num 1000], [Cell.num 10, Cell.num 0]]⟩ : DataFrame).col "impressions")) ∧
      (compute_derived_metrics
          ⟨["clicks", "impressions"],
            [[Cell.num 50, Cell.num 1000], [Cell.num 10, Cell.num 0]]⟩).col "ctr" =
        [Cell.num 5, Cell.null] :=
  C1_ctr_derived_metric
    ⟨["clicks", "impressions"], [[Cell.num 50, Cell.num 1000], [Cell.num 10, Cell.num 0]]⟩
    (by decide) (by decide) (by decide)

/-! ## Analytics engine: period comparison (kpis.py, compute_period_comparison)

A table with one temporal column and one metric column is a list of
`(day, value)` pairs; days are ordinals (`pd.Timestamp` arithmetic on
whole days).  The embedding returns the `<col>_period_change_pct` entry:
`None` when there is no usable date range, as the source returns `{}`. -/

def natListMin : List ℕ → Option ℕ
  | [] => none
  | a :: t => some (t.foldl Nat.min a)

def natListMax : List ℕ → Option ℕ
  | [] => none
  | a :: t => some (t.foldl Nat.max a)

/-- `compute_period_comparison` from `kpis.py`, for one metric column:
`mid = min + (max - min) // 2`; period 1 is strictly before `mid`,
period 2 on/after; the change is `(p2 - p1)/p1 * 100` when `p1 > 0`,
else `100` if `p2 > 0` else `0`; rounded to 2 decimal places. -/
def compute_period_comparison (rows : List (ℕ × ℚ)) : Option ℚ :=
  match natListMin (rows.map (·.1)), natListMax (rows.map (·.1)) with
  | some minD, some maxD =>
    let dateRange := maxD - minD
    if dateRange < 2 then none
    else
      let mid := minD + dateRange / 2
      let p1 := ((rows.filter (fun r => r.1 < mid)).map (·.2)).sum
      let p2 := ((rows.filter (fun r => mid ≤ r.1)).map (·.2)).sum
      let change : ℚ := if 0 < p1 then (p2 - p1) / p1 * 100 else if 0 < p2 then 100 else 0
      some (roundDp 2 change)
  | _, _ => none

/-- **C4, counterexample.**  On a table spanning exactly 4 days whose
metric totals 100 over days 1–2 (50 + 50) and 300 over days 3–4
(150 + 150), the code reports a change of 600.0, not the 200.0 the claim
asserts: the split point `min + (max-min)//2` is day 2, so period 1 is
day 1 alone (total 50) and period 2 is days 2–4 (total 350). -/
theorem C4_period_comparison_counterexample :
    compute_period_comparison [(1, 50), (2, 50), (3, 150), (4, 150)] = some 600 ∧
      compute_period_comparison [(1, 50), (2, 50), (3, 150), (4, 150)] ≠ some 200 := by
  have h : compute_period_comparison [(1, 50), (2, 50), (3, 150), (4, 150)] = some 600 := by
    rw [compute_period_comparison]
    norm_num [natListMin, natListMax, List.foldl, List.filter, roundDp, roundHalfEven]
  exact ⟨h, by rw [h]; norm_num⟩

/-- **C4, amended.**  Period comparison splits at
`min_date + (span // 2)` days, so a 4-day table is split into day 1
versus days 2–4 (not days 1–2 versus 3–4): with the 100 of the first
half spread 50/50 the reported change is 600.0, and 200.0 is reported
exactly when the whole 100 falls on day 1. -/
theorem C4_period_comparison_amended :
    compute_period_comparison [(1, 50), (2, 50), (3, 150), (4, 150)] = some 600 ∧
      compute_period_comparison [(1, 100), (2, 0), (3, 150), (4, 150)] = some 200 := by
  constructor
  · rw [compute_period_comparison]
    norm_num [natListMin, natListMax, List.foldl, List.filter, roundDp, roundHalfEven]
  · rw [compute_period_comparison]
    norm_num [natListMin, natListMax, List.foldl, List.filter, roundDp, roundHalfEven]

/-! ## Analytics engine: anomaly detection (kpis.py, detect_anomalies) -/

/-- Mean of a list of rationals. -/
def qMean (l : List ℚ) : ℚ := l.sum / l.length

/-- Population variance — `scipy.stats.zscore` standardizes with
`ddof = 0`. -/
def qPopVar (l : List ℚ) : ℚ := ((l.map (fun x => (x - qMean l) ^ 2)).sum) / l.length

/-- The per-value anomaly flags `|zscore(x)| > t` of `detect_anomalies`.
Since `|x-μ|/σ > t ↔ (x-μ)² > t²·σ²` for `t ≥ 0` and `σ > 0`, and a zero
σ makes every z-score NaN (whose `>` comparison is False, as is the
squared comparison `0 > 0`), the flag is the equivalent decidable squared
comparison. -/
def anomalyFlags (l : List ℚ) (t : ℚ) : List Bool :=
  l.map (fun x => decide ((x - qMean l) ^ 2 > t ^ 2 * qPopVar l))

/-- `detect_anomalies` for one column: drop nulls, skip columns with
fewer than 3 values, and report the anomaly count when positive (the
source omits the column from its result otherwise). -/
def detect_anomalies_count (col : List (Option ℚ)) (t : ℚ) : Option ℕ :=
  let data := col.filterMap id
  if data.length < 3 then none
  else
    let cnt := (anomalyFlags data t).count true
    if 0 < cnt then some cnt else none

lemma filterMap_id_replicate_some {α : Type} (n : ℕ) (a : α) :
    (List.replicate n (some a)).filterMap id = List.replicate n a := by
  induction n with
  | zero => rfl
  | succ m ih => simp [List.replicate_succ, ih]

lemma sum_replicate_rat (n : ℕ) (a : ℚ) : (List.replicate n a).sum = n * a := by
  induction n with
  | zero => simp
  | succ m ih => simp [List.replicate_succ, ih]; ring

/-- **C6.** For a numeric column of 10 identical values plus one distinct
outlier (in particular one "100 standard deviations away"), anomaly
detection with the default threshold 2.0 reports exactly 1 anomaly: the
outlier's z-score in the combined sample is √10 > 2 while each repeated
value scores 1/√10 < 2. -/
theorem C6_anomaly_detection (a b : ℚ) (hba : b ≠ a) :
    detect_anomalies_count (List.replicate 10 (some a) ++ [some b]) 2 = some 1 := by
  have hdata : (List.replicate 10 (some a) ++ [some b]).filterMap id =
      List.replicate 10 a ++ [b] := by
    rw [List.filterMap_append, filterMap_id_replicate_some]
    rfl
  have hlen : (List.replicate 10 a ++ [b]).length = 11 := by simp
  have hsum : (List.replicate 10 a ++ [b]).sum = 10 * a + b := by
    rw [List.sum_append, sum_replicate_rat]
    simp
  have hmean : qMean (List.replicate 10 a ++ [b]) = (10 * a + b) / 11 := by
    rw [qMean, hsum, hlen]
    norm_num
  have hvar : qPopVar (List.replicate 10 a ++ [b]) = 10 * (b - a) ^ 2 / 121 := by
    rw [qPopVar, hmean, hlen]
    rw [List.map_append, List.map_replicate, List.sum_append, sum_replicate_rat]
    simp only [List.map_cons, List.map_nil, List.sum_cons, List.sum_nil]
    field_simp
    ring
  have hd2 : (0 : ℚ) < (b - a) ^ 2 := pow_two_pos_of_ne_zero (sub_ne_zero.mpr hba)
  have hPa : ¬ ((a - qMean (List.replicate 10 a ++ [b])) ^ 2 >
      (2 : ℚ) ^ 2 * qPopVar (List.replicate 10 a ++ [b])) := by
    rw [hmean, hvar]
    intro hgt
    have he : (a - (10 * a + b) / 11) ^ 2 = (b - a) ^ 2 / 121 := by
      field_simp
      ring
    rw [he] at hgt
    nlinarith [hd2]
  have hPb : (b - qMean (List.replicate 10 a ++ [b])) ^ 2 >
      (2 : ℚ) ^ 2 * qPopVar (List.replicate 10 a ++ [b]) := by
    rw [hmean, hvar]
    have he : (b - (10 * a + b) / 11) ^ 2 = 100 * (b - a) ^ 2 / 121 := by
      field_simp
      ring
    rw [he]
    nlinarith [hd2]
  have hflags : anomalyFlags (List.replicate 10 a ++ [b]) 2 =
      List.replicate 10 false ++ [true] := by
    rw [anomalyFlags, List.map_append, List.map_replicate]
    congr 1
    · rw [decide_eq_false hPa]
    · simp only [List.map_cons, List.map_nil]
      rw [decide_eq_true hPb]
  rw [detect_anomalies_count]
  simp only [hdata, hlen, hflags]
  norm_num
  simp [List.count_replicate]

/-- Witness: C6 applied to ten copies of 5 and the far outlier 500. -/
theorem C6_anomaly_detection_witness :
    (500 : ℚ) ≠ 5 ∧
      detect_anomalies_count (List.replicate 10 (some (5 : ℚ)) ++ [some 500]) 2 = some 1 :=
  ⟨by norm_num, C6_anomaly_detection 5 500 (by norm_num)⟩

/-! ## Merge engine (ingest.py, merge_dataframes) -/

/-- The fixed priority list of candidate merge keys. -/
def key_candidates : List String :=
  ["id", "date", "timestamp", "campaign_id", "location_id",
   "user_id", "customer_id", "region", "category"]

/-- The key tuple of a row under the given key columns. -/
def keyOf (cols : List String) (ks : List String) (row : List Cell) : List Cell :=
  ks.map (fun k => getCell row (colIndex cols k))

/-- `pd.merge(l, r, on=ks, how='outer', suffixes=('', '_dup'))`:
every left row is paired with each key-matching right row (or padded with
nulls when none matches), unmatched right rows are appended with nulls in
the left-only columns, and right non-key columns colliding with a left
column name get the `_dup` suffix. -/
def mergeOuter (l r : DataFrame) (ks : List String) : DataFrame :=
  let rnk := r.cols.filter (fun c => decide (c ∉ ks))
  let renamed := rnk.map (fun c => if c ∈ l.cols then c ++ "_dup" else c)
  let projR := fun (rr : List Cell) =>
    ((r.cols.zip rr).filter (fun p => decide (p.1 ∉ ks))).map (fun p => p.2)
  let part1 := l.rows.flatMap (fun lr =>
    let ms := r.rows.filter (fun rr => decide (keyOf r.cols ks rr = keyOf l.cols ks lr))
    if ms.isEmpty then [lr ++ List.replicate rnk.length Cell.null]
    else ms.map (fun rr => lr ++ projR rr))
  let part2 := (r.rows.filter (fun rr =>
      decide (∀ lr ∈ l.rows, keyOf l.cols ks lr ≠ keyOf r.cols ks rr))).map
    (fun rr => (l.cols.map (fun c =>
      if c ∈ ks then getCell rr (colIndex r.cols c) else Cell.null)) ++ projR rr)
  ⟨l.cols ++ renamed, part1 ++ part2⟩

/-- `str.endswith(suffix)`, computed on the character lists (Lean's
`String.endsWith` is not kernel-reducible). -/
def strEndsWith (s suffix : String) : Bool :=
  decide (suffix.data.length ≤ s.data.length) &&
    decide (s.data.drop (s.data.length - suffix.data.length) = suffix.data)

/-- `result.loc[:, ~result.columns.str.endswith('_dup')]` — drop every
column whose name ends with `_dup`. -/
def dropDupCols (df : DataFrame) : DataFrame :=
  ⟨df.cols.filter (fun c => !(strEndsWith c "_dup")),
   df.rows.map (fun r =>
     ((df.cols.zip r).filter (fun p => !(strEndsWith p.1 "_dup"))).map (fun p => p.2))⟩

/-- Union of column names in order of first appearance
(`pd.concat` column resolution). -/
def unionCols (dfs : List DataFrame) : List String :=
  dfs.foldl (fun acc df => acc ++ df.cols.filter (fun c => decide (c ∉ acc))) []

/-- A row re-indexed to a wider column list, null where its own frame
lacks the column. -/
def reindexRow (df : DataFrame) (cols : List String) (row : List Cell) : List Cell :=
  cols.map (fun c => getCell row (colIndex df.cols c))

/-- `pd.concat(dfs, ignore_index=True)`: rows stacked over the column
union. -/
def concatFrames (dfs : List DataFrame) : DataFrame :=
  ⟨unionCols dfs, dfs.flatMap (fun df => df.rows.map (reindexRow df (unionCols dfs)))⟩

/-- `merge_dataframes` from `ingest.py`: error on no input, pass single
tables through, otherwise outer-join on the candidate keys common to all
tables (dropping `_dup` columns after each pairwise join) or concatenate
when there are none. -/
def merge_dataframes (dfs : List DataFrame) : Except String DataFrame :=
  match dfs with
  | [] => Except.error "No DataFrames to merge"
  | [d] => Except.ok d
  | d :: rest =>
    let mks := key_candidates.filter
      (fun c => (d :: rest).all (fun df => decide (c ∈ df.cols)))
    if mks = [] then Except.ok (concatFrames (d :: rest))
    else Except.ok (rest.foldl (fun acc df => dropDupCols (mergeOuter acc df mks)) d)

/-- "The two tables' column-name sets intersect in exactly `date`",
phrased with bounded (hence decidable) quantification. -/
def onlyDateShared (l r : DataFrame) : Prop :=
  (∀ c ∈ l.cols, c ∈ r.cols ↔ c = "date") ∧ "date" ∈ l.cols ∧ "date" ∈ r.cols

instance (l r : DataFrame) : Decidable (onlyDateShared l r) :=
  inferInstanceAs (Decidable (_ ∧ _ ∧ _))

lemma merge_keys_only_date {l r : DataFrame}
    (hint : onlyDateShared l r) :
    key_candidates.filter
      (fun c => ([l, r] : List DataFrame).all (fun df => decide (c ∈ df.cols))) = ["date"] := by
  have hdate : ([l, r] : List DataFrame).all (fun df => decide ("date" ∈ df.cols)) = true := by
    simp [List.all, hint.2.1, hint.2.2]
  have hnot : ∀ c, c ≠ "date" →
      ([l, r] : List DataFrame).all (fun df => decide (c ∈ df.cols)) = false := by
    intro c hc
    simp only [List.all, Bool.and_true, Bool.and_eq_false_iff, decide_eq_false_iff_not]
    by_cases h1 : c ∈ l.cols
    · by_cases h2 : c ∈ r.cols
      · exact absurd ((hint.1 c h1).mp h2) hc
      · simp [h1, h2]
    · simp [h1]
  rw [key_candidates]
  simp only [List.filter_cons, List.filter_nil, hdate,
    hnot "id" (by decide), hnot "timestamp" (by decide),
    hnot "campaign_id" (by decide), hnot "location_id" (by decide),
    hnot "user_id" (by decide), hnot "customer_id" (by decide),
    hnot "region" (by decide), hnot "category" (by decide)]
  simp

lemma merge_two_only_date {l r : DataFrame}
    (hint : onlyDateShared l r) :
    merge_dataframes [l, r] = Except.ok (dropDupCols (mergeOuter l r ["date"])) := by
  have heq : merge_dataframes [l, r] =
      (let mks := key_candidates.filter
        (fun c => ([l, r] : List DataFrame).all (fun df => decide (c ∈ df.cols)))
      if mks = [] then Except.ok (concatFrames [l, r])
      else Except.ok (([r] : List DataFrame).foldl
        (fun acc df => dropDupCols (mergeOuter acc df mks)) l)) := rfl
  rw [heq]
  simp only [merge_keys_only_date hint]
  rw [if_neg (by simp)]
  rfl

/-! ### Row-count arithmetic for the outer join -/

/-- Number of right rows matching a given left row's key tuple. -/
def matchCount (l r : DataFrame) (ks : List String) (lr : List Cell) : ℕ :=
  r.rows.countP (fun rr => decide (keyOf r.cols ks rr = keyOf l.cols ks lr))

/-- Number of right rows matching no left row. -/
def unmatchedRight (l r : DataFrame) (ks : List String) : ℕ :=
  r.rows.countP (fun rr => decide (∀ lr ∈ l.rows, keyOf l.cols ks lr ≠ keyOf r.cols ks rr))

lemma mergeOuter_rows_length (l r : DataFrame) (ks : List String) :
    (mergeOuter l r ks).rows.length =
      (l.rows.map (fun lr => max 1 (matchCount l r ks lr))).sum + unmatchedRight l r ks := by
  rw [mergeOuter]
  simp only [List.length_append, List.length_flatMap, List.length_map]
  have h2 : (List.filter
      (fun rr => decide (∀ lr ∈ l.rows, keyOf l.cols ks lr ≠ keyOf r.cols ks rr))
      r.rows).length = unmatchedRight l r ks := by
    rw [unmatchedRight, List.countP_eq_length_filter]
  rw [h2]
  congr 1
  refine congrArg List.sum (List.map_congr_left ?_)
  intro lr _
  simp only [Function.comp_apply]
  by_cases h : (r.rows.filter
      (fun rr => decide (keyOf r.cols ks rr = keyOf l.cols ks lr))).isEmpty
  · rw [if_pos h]
    have h0 : matchCount l r ks lr = 0 := by
      rw [matchCount, List.countP_eq_length_filter]
      rw [List.isEmpty_iff] at h
      rw [h]
      rfl
    rw [h0]
    simp
  · rw [if_neg h]
    rw [List.length_map]
    have hpos : 1 ≤ (r.rows.filter
        (fun rr => decide (keyOf r.cols ks rr = keyOf l.cols ks lr))).length := by
      rcases Nat.eq_zero_or_pos (r.rows.filter
          (fun rr => decide (keyOf r.cols ks rr = keyOf l.cols ks lr))).length with h0 | h0
      · rw [List.length_eq_zero] at h0
        rw [List.isEmpty_iff] at h
        exact absurd h0 h
      · exact h0
    rw [matchCount, List.countP_eq_length_filter]
    exact (Nat.max_eq_right hpos).symm

lemma sum_map_ge_length {α : Type} (g : α → ℕ) (L : List α) (h : ∀ a ∈ L, 1 ≤ g a) :
    L.length ≤ (L.map g).sum := by
  induction L with
  | nil => simp
  | cons a t ih =>
    simp only [List.map_cons, List.sum_cons, List.length_cons]
    have h1 := h a (by simp)
    have h2 := ih (fun x hx => h x (by simp [hx]))
    omega

lemma sum_map_le_length {α : Type} (g : α → ℕ) (L : List α) (h : ∀ a ∈ L, g a ≤ 1) :
    (L.map g).sum ≤ L.length := by
  induction L with
  | nil => simp
  | cons a t ih =>
    simp only [List.map_cons, List.sum_cons, List.length_cons]
    have h1 := h a (by simp)
    have h2 := ih (fun x hx => h x (by simp [hx]))
    omega

lemma sum_map_le_sum_map {α : Type} (f g : α → ℕ) (L : List α) (h : ∀ a ∈ L, f a ≤ g a) :
    (L.map f).sum ≤ (L.map g).sum := by
  induction L with
  | nil => simp
  | cons a t ih =>
    simp only [List.map_cons, List.sum_cons]
    have h1 := h a (by simp)
    have h2 := ih (fun x hx => h x (by simp [hx]))
    omega

lemma sum_map_max_one_le {α : Type} (g : α → ℕ) (L : List α) :
    (L.map (fun a => max 1 (g a))).sum ≤ L.length + (L.map g).sum := by
  induction L with
  | nil => simp
  | cons a t ih =>
    simp only [List.map_cons, List.sum_cons, List.length_cons]
    omega

lemma sum_countP_comm {α β : Type} (R : α → β → Bool) (A : List α) (B : List β) :
    (A.map (fun a => B.countP (R a))).sum =
      (B.map (fun b => A.countP (fun a => R a b))).sum := by
  induction A with
  | nil => simp [List.countP_nil]
  | cons a t ih =>
    simp only [List.map_cons, List.sum_cons, ih]
    have hstep : ∀ (u : List β),
        (u.map (fun b => t.countP (fun x => R x b))).sum + u.countP (R a) =
          (u.map (fun b => (a :: t).countP (fun x => R x b))).sum := by
      intro u
      induction u with
      | nil => simp
      | cons b v ihb =>
        simp only [List.map_cons, List.sum_cons]
        rw [List.countP_cons, List.countP_cons]
        cases hb : R a b
        · rw [if_neg (by simp [hb])]
          omega
        · rw [if_pos (by simp [hb])]
          omega
    rw [← hstep B]
    omega

lemma countP_le_sum_of_imp {β : Type} (p : β → Bool) (g : β → ℕ) (B : List β)
    (h : ∀ b ∈ B, p b = true → 1 ≤ g b) : B.countP p ≤ (B.map g).sum := by
  induction B with
  | nil => simp
  | cons b u ih =>
    rw [List.countP_cons]
    simp only [List.map_cons, List.sum_cons]
    have h2 := ih (fun x hx hp => h x (by simp [hx]) hp)
    by_cases hp : p b = true
    · have h1 := h b (by simp) hp
      rw [if_pos hp]
      omega
    · rw [if_neg hp]
      omega

lemma sum_le_countP_pos {β : Type} (g : β → ℕ) (B : List β)
    (h : ∀ b ∈ B, g b ≤ 1) :
    (B.map g).sum ≤ B.countP (fun b => decide (0 < g b)) := by
  induction B with
  | nil => simp
  | cons b u ih =>
    simp only [List.map_cons, List.sum_cons]
    rw [List.countP_cons]
    have h1 := h b (by simp)
    have h2 := ih (fun x hx => h x (by simp [hx]))
    by_cases hp : 0 < g b
    · rw [if_pos (by simpa using hp)]
      omega
    · rw [if_neg (by simpa using hp)]
      have h0 : g b = 0 := by omega
      omega

lemma countP_le_countP_of_imp {β : Type} (p q : β → Bool) (B : List β)
    (h : ∀ b ∈ B, p b = true → q b = true) : B.countP p ≤ B.countP q := by
  induction B with
  | nil => simp
  | cons b u ih =>
    rw [List.countP_cons, List.countP_cons]
    have h2 := ih (fun x hx hp => h x (by simp [hx]) hp)
    by_cases hp : p b = true
    · rw [if_pos hp, if_pos (h b (by simp) hp)]
      omega
    · rw [if_neg hp]
      by_cases hq : q b = true
      · rw [if_pos hq]
        omega
      · rw [if_neg hq]
        omega

lemma countP_add_countP_not {β : Type} (p : β → Bool) (B : List β) :
    B.countP p + B.countP (fun b => !(p b)) = B.length := by
  induction B with
  | nil => simp
  | cons b u ih =>
    rw [List.countP_cons, List.countP_cons]
    simp only [List.length_cons]
    cases hp : p b
    · rw [if_neg (by simp [hp]), if_pos (by simp [hp])]
      omega
    · rw [if_pos (by simp [hp]), if_neg (by simp [hp])]
      omega

lemma nodup_map_countP_le_one {α β : Type} [DecidableEq β] (f : α → β) (l : List α)
    (h : (l.map f).Nodup) (v : β) :
    l.countP (fun x => decide (f x = v)) ≤ 1 := by
  induction l with
  | nil => simp
  | cons a t ih =>
    rw [List.countP_cons]
    simp only [List.map_cons, List.nodup_cons] at h
    by_cases hv : f a = v
    · have hz : t.countP (fun x => decide (f x = v)) = 0 := by
        rw [List.countP_eq_zero]
        intro x hx
        simp only [decide_eq_true_eq]
        intro hfx
        exact h.1 (by rw [hv, ← hfx]; exact List.mem_map_of_mem f hx)
      rw [hz, if_pos (by simpa using hv)]
    · rw [if_neg (by simpa using hv)]
      have := ih h.2
      omega

lemma dropDupCols_rows_length (df : DataFrame) :
    (dropDupCols df).rows.length = df.rows.length := by
  rw [dropDupCols]
  simp

lemma mergeOuter_lower (l r : DataFrame) (ks : List String) :
    max l.rows.length r.rows.length ≤ (mergeOuter l r ks).rows.length := by
  rw [mergeOuter_rows_length]
  refine max_le ?_ ?_
  · have h1 := sum_map_ge_length (fun lr => max 1 (matchCount l r ks lr)) l.rows
      (fun a _ => Nat.le_max_left 1 _)
    omega
  · have hcomm := sum_countP_comm
      (fun lr rr => decide (keyOf r.cols ks rr = keyOf l.cols ks lr)) l.rows r.rows
    have hge := sum_map_le_sum_map (fun lr => matchCount l r ks lr)
      (fun lr => max 1 (matchCount l r ks lr)) l.rows (fun a _ => Nat.le_max_right 1 _)
    have hmatch : r.rows.countP (fun rr =>
        !(decide (∀ lr ∈ l.rows, keyOf l.cols ks lr ≠ keyOf r.cols ks rr))) ≤
        (r.rows.map (fun rr => l.rows.countP
          (fun lr => decide (keyOf r.cols ks rr = keyOf l.cols ks lr)))).sum := by
      apply countP_le_sum_of_imp
      intro rr _ hq
      simp only [Bool.not_eq_true', decide_eq_false_iff_not] at hq
      push_neg at hq
      obtain ⟨lr0, hlr0, heq⟩ := hq
      have : 0 < l.rows.countP (fun lr => decide (keyOf r.cols ks rr = keyOf l.cols ks lr)) := by
        rw [List.countP_pos_iff]
        exact ⟨lr0, hlr0, by simp [heq]⟩
      omega
    have htot := countP_add_countP_not
      (fun rr => decide (∀ lr ∈ l.rows, keyOf l.cols ks lr ≠ keyOf r.cols ks rr)) r.rows
    have hcnt : (l.rows.map (fun lr => matchCount l r ks lr)).sum =
        (r.rows.map (fun rr => l.rows.countP
          (fun lr => decide (keyOf r.cols ks rr = keyOf l.cols ks lr)))).sum := by
      rw [← hcomm]
      rfl
    rw [unmatchedRight]
    have hflip : r.rows.countP (fun rr =>
        !(decide (∀ lr ∈ l.rows, keyOf l.cols ks lr ≠ keyOf r.cols ks rr))) +
        r.rows.countP (fun rr =>
          decide (∀ lr ∈ l.rows, keyOf l.cols ks lr ≠ keyOf r.cols ks rr)) = r.rows.length := by
      omega
    omega

lemma countP_congr_mem {β : Type} (p q : β → Bool) (B : List β)
    (h : ∀ b ∈ B, p b = q b) : B.countP p = B.countP q := by
  induction B with
  | nil => simp
  | cons b u ih =>
    rw [List.countP_cons, List.countP_cons]
    rw [h b (by simp), ih (fun x hx => h x (by simp [hx]))]

lemma mergeOuter_upper_of_nodup (l r : DataFrame) (ks : List String)
    (hnd : (l.rows.map (keyOf l.cols ks)).Nodup ∨ (r.rows.map (keyOf r.cols ks)).Nodup) :
    (mergeOuter l r ks).rows.length ≤ l.rows.length + r.rows.length := by
  rw [mergeOuter_rows_length]
  have hunm : unmatchedRight l r ks ≤ r.rows.length := by
    rw [unmatchedRight]
    exact List.countP_le_length _
  rcases hnd with hL | hR
  · -- left keys unique: every right row matches at most one left row
    have hcomm := sum_countP_comm
      (fun lr rr => decide (keyOf r.cols ks rr = keyOf l.cols ks lr)) l.rows r.rows
    have hcnt1 : ∀ rr ∈ r.rows,
        l.rows.countP (fun lr => decide (keyOf r.cols ks rr = keyOf l.cols ks lr)) ≤ 1 := by
      intro rr _
      have := nodup_map_countP_le_one (keyOf l.cols ks) l.rows hL (keyOf r.cols ks rr)
      rw [countP_congr_mem (fun lr => decide (keyOf r.cols ks rr = keyOf l.cols ks lr))
        (fun lr => decide (keyOf l.cols ks lr = keyOf r.cols ks rr)) l.rows
        (fun lr _ => by by_cases he : keyOf l.cols ks lr = keyOf r.cols ks rr <;> simp [he, eq_comm])]
      exact this
    have hsumR : (r.rows.map (fun rr => l.rows.countP
        (fun lr => decide (keyOf r.cols ks rr = keyOf l.cols ks lr)))).sum ≤
        r.rows.countP (fun rr => decide (0 < l.rows.countP
          (fun lr => decide (keyOf r.cols ks rr = keyOf l.cols ks lr)))) := by
      have := sum_le_countP_pos
        (fun rr => l.rows.countP (fun lr => decide (keyOf r.cols ks rr = keyOf l.cols ks lr)))
        r.rows hcnt1
      simpa using this
    have himp : r.rows.countP (fun rr => decide (0 <
        l.rows.countP (fun lr => decide (keyOf r.cols ks rr = keyOf l.cols ks lr)))) ≤
        r.rows.countP (fun rr =>
          !(decide (∀ lr ∈ l.rows, keyOf l.cols ks lr ≠ keyOf r.cols ks rr))) := by
      apply countP_le_countP_of_imp
      intro rr _ hp
      simp only [decide_eq_true_eq] at hp
      rw [List.countP_pos_iff] at hp
      obtain ⟨lr0, hlr0, heq⟩ := hp
      simp only [decide_eq_true_eq] at heq
      simp only [Bool.not_eq_true', decide_eq_false_iff_not]
      push_neg
      exact ⟨lr0, hlr0, heq.symm⟩
    have htot := countP_add_countP_not
      (fun rr => decide (∀ lr ∈ l.rows, keyOf l.cols ks lr ≠ keyOf r.cols ks rr)) r.rows
    have hmax := sum_map_max_one_le (fun lr => matchCount l r ks lr) l.rows
    have hcnt : (l.rows.map (fun lr => matchCount l r ks lr)).sum =
        (r.rows.map (fun rr => l.rows.countP
          (fun lr => decide (keyOf r.cols ks rr = keyOf l.cols ks lr)))).sum := by
      rw [← hcomm]
      rfl
    rw [unmatchedRight]
    omega
  · -- right keys unique: every left row matches at most one right row
    have hcnt1 : ∀ lr ∈ l.rows, matchCount l r ks lr ≤ 1 := by
      intro lr _
      rw [matchCount]
      exact nodup_map_countP_le_one (keyOf r.cols ks) r.rows hR (keyOf l.cols ks lr)
    have hsum := sum_map_le_length (fun lr => max 1 (matchCount l r ks lr)) l.rows
      (fun a ha => Nat.max_le.mpr ⟨Nat.le_refl 1, hcnt1 a ha⟩)
    omega

/-- **C3, counterexample.**  Two 3-row tables sharing exactly the column
`date`, all six rows carrying the same date, outer-join to 3 × 3 = 9 rows
— more than the sum 3 + 3 = 6 of the input row counts, so the claimed
upper bound fails. -/
theorem C3_merge_bounds_counterexample :
    (merge_dataframes
      [⟨["date", "a"], [[Cell.num 1, Cell.num 10], [Cell.num 1, Cell.num 20],
        [Cell.num 1, Cell.num 30]]⟩,
       ⟨["date", "b"], [[Cell.num 1, Cell.num 1], [Cell.num 1, Cell.num 2],
        [Cell.num 1, Cell.num 3]]⟩]).map (fun df => df.rows.length) = Except.ok 9 ∧
      ¬((9 : ℕ) ≤ 3 + 3) := by
  constructor
  · decide
  · decide

/-- **C3, amended.**  When two tables' column sets intersect in exactly
`date`, `merge_dataframes` outer-joins them on `date` and the result has
at least `max` of the input row counts; the claimed upper bound by the
*sum* of the row counts holds under the additional assumption that the
`date` keys are duplicate-free in at least one of the two tables (the
counterexample shows it fails otherwise). -/
theorem C3_merge_date_outer_join_bounds (l r : DataFrame)
    (hint : onlyDateShared l r) (m : DataFrame)
    (hm : merge_dataframes [l, r] = Except.ok m) :
    max l.rows.length r.rows.length ≤ m.rows.length ∧
      ((l.rows.map (keyOf l.cols ["date"])).Nodup ∨
        (r.rows.map (keyOf r.cols ["date"])).Nodup →
        m.rows.length ≤ l.rows.length + r.rows.length) := by
  rw [merge_two_only_date hint] at hm
  have hm2 : m = dropDupCols (mergeOuter l r ["date"]) := (Except.ok.inj hm).symm
  subst hm2
  rw [dropDupCols_rows_length]
  exact ⟨mergeOuter_lower l r ["date"],
    fun hnd => mergeOuter_upper_of_nodup l r ["date"] hnd⟩

/-- Witness: the amended C3 bounds at two one-row tables sharing exactly
the `date` column. -/
theorem C3_merge_date_outer_join_bounds_witness :
    max 1 1 ≤ (dropDupCols (mergeOuter
      ⟨["date", "a"], [[Cell.num 1, Cell.num 5]]⟩
      ⟨["date", "b"], [[Cell.num 2, Cell.num 6]]⟩ ["date"])).rows.length ∧
      (((⟨["date", "a"], [[Cell.num 1, Cell.num 5]]⟩ : DataFrame).rows.map
          (keyOf ["date", "a"] ["date"])).Nodup ∨
        ((⟨["date", "b"], [[Cell.num 2, Cell.num 6]]⟩ : DataFrame).rows.map
          (keyOf ["date", "b"] ["date"])).Nodup →
        (dropDupCols (mergeOuter
          ⟨["date", "a"], [[Cell.num 1, Cell.num 5]]⟩
          ⟨["date", "b"], [[Cell.num 2, Cell.num 6]]⟩ ["date"])).rows.length ≤ 1 + 1) :=
  C3_merge_date_outer_join_bounds
    ⟨["date", "a"], [[Cell.num 1, Cell.num 5]]⟩
    ⟨["date", "b"], [[Cell.num 2, Cell.num 6]]⟩
    (by decide)
    (dropDupCols (mergeOuter
      ⟨["date", "a"], [[Cell.num 1, Cell.num 5]]⟩
      ⟨["date", "b"], [[Cell.num 2, Cell.num 6]]⟩ ["date"]))
    (by decide)

/-! ## C10: the `_dup` filter after each pairwise join -/

lemma dropDup_cols_all (df : DataFrame) :
    (dropDupCols df).cols.all (fun c => !(strEndsWith c "_dup")) = true := by
  rw [dropDupCols, List.all_eq_true]
  intro c hc
  exact (List.mem_filter.mp hc).2

lemma foldl_dropDup_all (mks : List String) :
    ∀ (rest : List DataFrame) (acc r0 : DataFrame),
      (((r0 :: rest).foldl (fun acc df => dropDupCols (mergeOuter acc df mks)) acc).cols.all
        (fun c => !(strEndsWith c "_dup"))) = true := by
  intro rest
  induction rest with
  | nil =>
    intro acc r0
    rw [List.foldl_cons, List.foldl_nil]
    exact dropDup_cols_all _
  | cons r1 rest2 ih =>
    intro acc r0
    rw [List.foldl_cons]
    exact ih _ r1

/-- **C10.** In the key-based merge path (at least two tables, at least
one merge key), every column of the merged result is free of the `_dup`
suffix: after each pairwise outer join the code drops **all** columns
ending in `_dup`, including columns that already carried that name in a
source table and are not join-created duplicates. -/
theorem C10_dup_columns_dropped (dfs : List DataFrame) (d : DataFrame)
    (rest : List DataFrame) (hdfs : dfs = d :: rest) (hrest : rest ≠ [])
    (hkeys : key_candidates.filter
      (fun c => dfs.all (fun df => decide (c ∈ df.cols))) ≠ [])
    (m : DataFrame) (hm : merge_dataframes dfs = Except.ok m) :
    m.cols.all (fun c => !(strEndsWith c "_dup")) = true := by
  subst hdfs
  cases rest with
  | nil => exact absurd rfl hrest
  | cons r0 rest2 =>
    have heq : merge_dataframes (d :: r0 :: rest2) =
        (let mks := key_candidates.filter
          (fun c => (d :: r0 :: rest2).all (fun df => decide (c ∈ df.cols)))
        if mks = [] then Except.ok (concatFrames (d :: r0 :: rest2))
        else Except.ok ((r0 :: rest2).foldl
          (fun acc df => dropDupCols (mergeOuter acc df mks)) d)) := rfl
    rw [heq] at hm
    simp only at hm
    rw [if_neg hkeys] at hm
    have hm2 : m = (r0 :: rest2).foldl
        (fun acc df => dropDupCols (mergeOuter acc df
          (key_candidates.filter
            (fun c => (d :: r0 :: rest2).all (fun df => decide (c ∈ df.cols)))))) d :=
      (Except.ok.inj hm).symm
    rw [hm2]
    exact foldl_dropDup_all _ rest2 d r0

/-- Witness: a left table that already contains a `notes_dup` column (not
a join artifact) loses it silently in the merged result. -/
theorem C10_dup_columns_dropped_witness :
    ("notes_dup" ∈ (⟨["date", "notes_dup"],
        [[Cell.num 1, Cell.str "x"]]⟩ : DataFrame).cols ∧
      "notes_dup" ∉ (dropDupCols (mergeOuter
        ⟨["date", "notes_dup"], [[Cell.num 1, Cell.str "x"]]⟩
        ⟨["date", "b"], [[Cell.num 1, Cell.num 2]]⟩ ["date"])).cols) ∧
      ((dropDupCols (mergeOuter
        ⟨["date", "notes_dup"], [[Cell.num 1, Cell.str "x"]]⟩
        ⟨["date", "b"], [[Cell.num 1, Cell.num 2]]⟩ ["date"])).cols.all
        (fun c => !(strEndsWith c "_dup"))) = true :=
  ⟨by decide,
    C10_dup_columns_dropped
      [⟨["date", "notes_dup"], [[Cell.num 1, Cell.str "x"]]⟩,
        ⟨["date", "b"], [[Cell.num 1, Cell.num 2]]⟩]
      ⟨["date", "notes_dup"], [[Cell.num 1, Cell.str "x"]]⟩
      [⟨["date", "b"], [[Cell.num 1, Cell.num 2]]⟩]
      rfl (by decide) (by decide)
      (dropDupCols (mergeOuter
        ⟨["date", "notes_dup"], [[Cell.num 1, Cell.str "x"]]⟩
        ⟨["date", "b"], [[Cell.num 1, Cell.num 2]]⟩ ["date"]))
      (by decide)⟩

/-! ## Markdown text extraction (unstructured.py, read_markdown_file)

The six `re.sub` passes are embedded as deterministic fueled scanners:
for these patterns (single-character classes bounded by required literal
delimiters) greedy matching without backtracking coincides with Python's
`re` semantics.  The fuel is always at least the input length plus one
and every step consumes at least one character. -/

/-- The backtick character (code 96). -/
def btick : Char := Char.ofNat 96

/-- `re.sub(r'^#+\s*', '', content, flags=re.MULTILINE)`: at each line
start, drop the run of `#` and any following whitespace (which, as `\s`
includes newlines, may swallow blank lines). -/
def subHeadersAux : ℕ → Bool → List Char → List Char
  | 0, _, _ => []
  | _ + 1, _, [] => []
  | fuel + 1, atLS, c :: cs =>
    if atLS = true ∧ c = '#' then
      let afterHash := (c :: cs).dropWhile (fun x => decide (x = '#'))
      let ws := afterHash.takeWhile isPySpace
      let rest := afterHash.dropWhile isPySpace
      subHeadersAux fuel (decide (ws.getLast? = some '\n')) rest
    else c :: subHeadersAux fuel (decide (c = '\n')) cs

/-- `re.sub(r'\*+([^*]+)\*+', r'\1', content)`: keep the emphasised text,
drop the star runs around it. -/
def subEmphAux : ℕ → List Char → List Char
  | 0, _ => []
  | _ + 1, [] => []
  | fuel + 1, c :: cs =>
    if c = '*' then
      let s1 := (c :: cs).dropWhile (fun x => decide (x = '*'))
      let t := s1.takeWhile (fun x => decide (x ≠ '*'))
      let rest1 := s1.dropWhile (fun x => decide (x ≠ '*'))
      if t ≠ [] ∧ rest1 ≠ [] then
        t ++ subEmphAux fuel (rest1.dropWhile (fun x => decide (x = '*')))
      else c :: subEmphAux fuel cs
    else c :: subEmphAux fuel cs

/-- `re.sub(r'\[([^\]]+)\]\([^)]+\)', r'\1', content)`: keep link text,
drop the URL. -/
def subLinksAux : ℕ → List Char → List Char
  | 0, _ => []
  | _ + 1, [] => []
  | fuel + 1, c :: cs =>
    if c = '[' then
      let t := cs.takeWhile (fun x => decide (x ≠ ']'))
      let rest1 := cs.dropWhile (fun x => decide (x ≠ ']'))
      match t, rest1 with
      | _ :: _, ']' :: '(' :: rest2 =>
        let u := rest2.takeWhile (fun x => decide (x ≠ ')'))
        let rest3 := rest2.dropWhile (fun x => decide (x ≠ ')'))
        match u, rest3 with
        | _ :: _, ')' :: rest4 => t ++ subLinksAux fuel rest4
        | _, _ => c :: subLinksAux fuel cs
      | _, _ => c :: subLinksAux fuel cs
    else c :: subLinksAux fuel cs

/-- `re.sub(r'!\[([^\]]*)\]\([^)]+\)', '', content)`: drop image
constructs entirely (alt text may be empty). -/
def subImagesAux : ℕ → List Char → List Char
  | 0, _ => []
  | _ + 1, [] => []
  | fuel + 1, c :: cs =>
    if c = '!' then
      match cs with
      | '[' :: cs2 =>
        let rest1 := cs2.dropWhile (fun x => decide (x ≠ ']'))
        match rest1 with
        | ']' :: '(' :: rest2 =>
          let u := rest2.takeWhile (fun x => decide (x ≠ ')'))
          let rest3 := rest2.dropWhile (fun x => decide (x ≠ ')'))
          match u, rest3 with
          | _ :: _, ')' :: rest4 => subImagesAux fuel rest4
          | _, _ => c :: subImagesAux fuel cs
        | _ => c :: subImagesAux fuel cs
      | _ => c :: subImagesAux fuel cs
    else c :: subImagesAux fuel cs

/-- Find the next triple backtick, returning the remainder after it. -/
def findTriple : ℕ → List Char → Option (List Char)
  | 0, _ => none
  | _ + 1, [] => none
  | fuel + 1, c :: cs =>
    if c = btick then
      match cs with
      | c2 :: c3 :: rest =>
        if c2 = btick ∧ c3 = btick then some rest else findTriple fuel cs
      | _ => findTriple fuel cs
    else findTriple fuel cs

/-- Fenced code blocks: non-greedy, so the block ends at the first
closing fence; an unclosed fence is left alone. -/
def subFencedAux : ℕ → List Char → List Char
  | 0, _ => []
  | _ + 1, [] => []
  | fuel + 1, c :: cs =>
    if c = btick then
      match cs with
      | c2 :: c3 :: rest =>
        if c2 = btick ∧ c3 = btick then
          match findTriple (rest.length + 1) rest with
          | some rest2 => subFencedAux fuel rest2
          | none => c :: subFencedAux fuel cs
        else c :: subFencedAux fuel cs
      | _ => c :: subFencedAux fuel cs
    else c :: subFencedAux fuel cs

/-- Inline code spans: keep the code text, drop the backticks. -/
def subInlineAux : ℕ → List Char → List Char
  | 0, _ => []
  | _ + 1, [] => []
  | fuel + 1, c :: cs =>
    if c = btick then
      let t := cs.takeWhile (fun x => decide (x ≠ btick))
      let rest1 := cs.dropWhile (fun x => decide (x ≠ btick))
      match t, rest1 with
      | _ :: _, _ :: rest2 => t ++ subInlineAux fuel rest2
      | _, _ => c :: subInlineAux fuel cs
    else c :: subInlineAux fuel cs

/-- The text-transformation core of `read_markdown_file`: the six
substitutions applied in source order — headers, emphasis, links,
images, fenced code, inline code — followed by `str.strip()`.
(The enclosing function also performs the file read, which is I/O.) -/
def read_markdown_text (s : String) : String :=
  let l0 := s.data
  let l1 := subHeadersAux (l0.length + 1) true l0
  let l2 := subEmphAux (l1.length + 1) l1
  let l3 := subLinksAux (l2.length + 1) l2
  let l4 := subImagesAux (l3.length + 1) l3
  let l5 := subFencedAux (l4.length + 1) l4
  let l6 := subInlineAux (l5.length + 1) l5
  String.mk (pyStrip isPySpace l6)

/-- **C9, counterexample.**  Because the link substitution runs *before*
the image substitution, the image `![alt](url)` is first rewritten by the
link pattern to `!alt` — it is **not** dropped entirely from the output
as the claim asserts. -/
theorem C9_markdown_images_counterexample :
    read_markdown_text "![alt](url)" = "!alt" ∧
      read_markdown_text "![alt](url)" ≠ "" := by
  constructor
  · decide
  · decide

/-- **C9, amended.**  The substitutions do run in the order headers →
emphasis → links → images → fenced code → inline code, and link text is
kept; but image constructs with non-empty alt text are consumed by the
*link* pattern first, leaving `!` plus the alt text, and only an image
with empty alt text (which the link pattern, requiring one or more
characters, cannot match) is dropped entirely. -/
theorem C9_markdown_substitution_order_amended :
    read_markdown_text "[text](url)" = "text" ∧
      read_markdown_text "![alt](url)" = "!alt" ∧
      read_markdown_text "![](url)" = "" := by
  refine ⟨by decide, by decide, by decide⟩

/-! ## Unstructured metric extraction (unstructured.py, extract_metrics_from_text)

The fixed regex patterns are embedded as deterministic scanners.  For
each of these patterns the greedy, non-backtracking reading coincides
with Python's `re.findall`: after each numeric sub-match the next
required element begins with a letter or a fixed delimiter, which a
shorter numeric sub-match would leave facing a digit or comma, so no
backtracking alternative can succeed where the greedy one fails. -/

/-- Generic `re.findall` scanner: try the matcher at every position,
resume after each (non-empty) match. -/
def scanAll (m : List Char → Option (List Char × List Char)) :
    ℕ → List Char → List (List Char)
  | 0, _ => []
  | _ + 1, [] => []
  | fuel + 1, c :: cs =>
    match m (c :: cs) with
    | some (cap, rest) => cap :: scanAll m fuel rest
    | none => scanAll m fuel cs

/-- `\d+(?:\.\d+)?` — an integer with optional decimal part. -/
def matchDecimal (l : List Char) : Option (List Char × List Char) :=
  let ds := l.takeWhile isDigitC
  if ds = [] then none
  else
    let rest1 := l.dropWhile isDigitC
    match rest1 with
    | '.' :: more =>
      let fs := more.takeWhile isDigitC
      if fs = [] then some (ds, rest1)
      else some (ds ++ '.' :: fs, more.dropWhile isDigitC)
    | _ => some (ds, rest1)

/-- `(?:,\d{3})*` — comma-separated thousands groups. -/
def commaGroups : ℕ → List Char → (List Char × List Char)
  | 0, l => ([], l)
  | fuel + 1, l =>
    match l with
    | ',' :: d1 :: d2 :: d3 :: rest =>
      if isDigitC d1 ∧ isDigitC d2 ∧ isDigitC d3 then
        let g := commaGroups fuel rest
        (',' :: d1 :: d2 :: d3 :: g.1, g.2)
      else ([], l)
    | _ => ([], l)

/-- `\d+(?:,\d{3})*` — an integer with optional thousands separators. -/
def matchCommaNum (l : List Char) : Option (List Char × List Char) :=
  let ds := l.takeWhile isDigitC
  if ds = [] then none
  else
    let rest1 := l.dropWhile isDigitC
    let g := commaGroups (rest1.length + 1) rest1
    some (ds ++ g.1, g.2)

/-- Pattern `'percentages'`: `(\d+(?:\.\d+)?)\s*%`. -/
def tryPercent (l : List Char) : Option (List Char × List Char) :=
  match matchDecimal l with
  | some (num, rest1) =>
    match rest1.dropWhile isPySpace with
    | '%' :: rest2 => some (num, rest2)
    | _ => none
  | none => none

/-- Pattern `'dollar_amounts'`: `\$\s*(\d+(?:,\d{3})*(?:\.\d{2})?)`. -/
def tryDollar (l : List Char) : Option (List Char × List Char) :=
  match l with
  | '$' :: rest0 =>
    match matchCommaNum (rest0.dropWhile isPySpace) with
    | some (num, rest2) =>
      match rest2 with
      | '.' :: d1 :: d2 :: rest3 =>
        if isDigitC d1 ∧ isDigitC d2 then some (num ++ ['.', d1, d2], rest3)
        else some (num, rest2)
      | _ => some (num, rest2)
    | none => none
  | _ => none

/-- Word characters, for the `\b` boundary after `[KMB]`. -/
def isWordChar (c : Char) : Bool := isLowerAZ c || isUpperAZ c || isDigitC c || isU c

/-- Pattern `'large_numbers'`: `(\d+(?:\.\d+)?)\s*([KMB])\b`, with
`re.IGNORECASE` applying to the suffix class. -/
def tryLarge (l : List Char) : Option ((List Char × Char) × List Char) :=
  match matchDecimal l with
  | some (num, rest1) =>
    match rest1.dropWhile isPySpace with
    | c :: rest3 =>
      if asciiLower c = 'k' ∨ asciiLower c = 'm' ∨ asciiLower c = 'b' then
        match rest3 with
        | [] => some ((num, c), rest3)
        | d :: _ => if isWordChar d then none else some ((num, c), rest3)
      else none
    | [] => none
  | none => none

/-- Scanner variant for the two-group `large_numbers` pattern. -/
def scanLarge : ℕ → List Char → List (List Char × Char)
  | 0, _ => []
  | _ + 1, [] => []
  | fuel + 1, c :: cs =>
    match tryLarge (c :: cs) with
    | some (cap, rest) => cap :: scanLarge fuel rest
    | none => scanLarge fuel cs

/-- Case-insensitive literal word match (the word given lower-case). -/
def matchWordCI : List Char → List Char → Option (List Char)
  | [], rest => some rest
  | _ :: _, [] => none
  | w :: ws, c :: rest => if asciiLower c = w then matchWordCI ws rest else none

/-- Try each unit word in order, each with regex-optional plural `s`. -/
def tryWordAlt : List (List Char) → List Char → Option (List Char)
  | [], _ => none
  | w :: ws, l =>
    match matchWordCI w l with
    | some rest =>
      match rest with
      | c :: rest2 => if asciiLower c = 's' then some rest2 else some rest
      | [] => some rest
    | none => tryWordAlt ws l

/-- Patterns `'impressions'` / `'clicks'` / `'conversions'` /
`'visitors'`: `(\d+(?:,\d{3})*)\s*(?:word1s?|word2s?)`. -/
def tryUnit (words : List (List Char)) (l : List Char) :
    Option (List Char × List Char) :=
  match matchCommaNum l with
  | some (num, rest1) =>
    match tryWordAlt words (rest1.dropWhile isPySpace) with
    | some rest2 => some (num, rest2)
    | none => none
  | none => none

/-- Pattern `'ctr'`:
`(?:CTR|click[- ]?through[- ]?rate)[:\s]*(\d+(?:\.\d+)?)\s*%?`. -/
def tryCtr (l : List Char) : Option (List Char × List Char) :=
  let afterHead : Option (List Char) :=
    match matchWordCI ['c', 't', 'r'] l with
    | some rest => some rest
    | none =>
      match matchWordCI ['c', 'l', 'i', 'c', 'k'] l with
      | some rest1 =>
        let rest1b := match rest1 with
          | c :: r2 => if c = '-' ∨ c = ' ' then r2 else rest1
          | [] => rest1
        match matchWordCI ['t', 'h', 'r', 'o', 'u', 'g', 'h'] rest1b with
        | some rest2 =>
          let rest2b := match rest2 with
            | c :: r3 => if c = '-' ∨ c = ' ' then r3 else rest2
            | [] => rest2
          matchWordCI ['r', 'a', 't', 'e'] rest2b
        | none => none
      | none => none
  match afterHead with
  | some rest =>
    match matchDecimal (rest.dropWhile (fun x => decide (x = ':') || isPySpace x)) with
    | some (num, rest2) =>
      match rest2.dropWhile isPySpace with
      | '%' :: rest4 => some (num, rest4)
      | rest3 => some (num, rest3)
    | none => none
  | none => none

/-- Pattern `'dates'`: one or two digits, slash-or-hyphen, one or two
digits, slash-or-hyphen, two to four digits; or four digits, a
separator, one or two digits, a separator, one or two digits. -/
def tryDate (l : List Char) : Option (List Char × List Char) :=
  let ds := l.takeWhile isDigitC
  let rest0 := l.dropWhile isDigitC
  let tail : ℕ → ℕ → Option (List Char × List Char) := fun lo hi =>
    match rest0 with
    | s1 :: rest1 =>
      if s1 = '/' ∨ s1 = '-' then
        let ds2 := rest1.takeWhile isDigitC
        let rest2 := rest1.dropWhile isDigitC
        if 1 ≤ ds2.length ∧ ds2.length ≤ 2 then
          match rest2 with
          | s2 :: rest3 =>
            if s2 = '/' ∨ s2 = '-' then
              let ds3 := rest3.takeWhile isDigitC
              if lo ≤ ds3.length then
                let taken := ds3.take hi
                some (ds ++ s1 :: ds2 ++ s2 :: taken, rest3.drop taken.length)
              else none
            else none
          | [] => none
        else none
      else none
    | [] => none
  if 1 ≤ ds.length ∧ ds.length ≤ 2 then tail 2 4
  else if ds.length = 4 then tail 1 2
  else none

/-- Digits to a natural number. -/
def parseNatDigits (l : List Char) : ℕ :=
  l.foldl (fun acc c => acc * 10 + (c.toNat - 48)) 0

/-- `float(s)` for `digits(.digits)?` strings. -/
def parseDecQ (l : List Char) : ℚ :=
  let intPart := l.takeWhile isDigitC
  let frac := ((l.dropWhile isDigitC).drop 1).takeWhile isDigitC
  (parseNatDigits intPart : ℚ) + (parseNatDigits frac : ℚ) / (10 : ℚ) ^ frac.length

/-- A value in the metrics mapping: a numeric scalar (text-understanding
path), a list of numbers (`large_numbers` and the count metrics), or a
list of matched strings (the other patterns). -/
inductive MetricValue where
  | num (q : ℚ)
  | nums (l : List ℚ)
  | strs (l : List String)
  deriving DecidableEq, Repr

/-- `extract_metrics_from_text` from `unstructured.py`: apply the nine
named patterns in insertion order, keep only those with matches;
`large_numbers` are scaled by their K/M/B suffix, the four count metrics
parse their comma-grouped integers, the rest stay strings. -/
def extract_metrics_from_text (text : String) : List (String × MetricValue) :=
  let cs := text.data
  let fuel := cs.length + 1
  let pct := scanAll tryPercent fuel cs
  let dollars := scanAll tryDollar fuel cs
  let large := scanLarge fuel cs
  let imps := scanAll (tryUnit [['i','m','p','r','e','s','s','i','o','n'], ['v','i','e','w']]) fuel cs
  let clks := scanAll (tryUnit [['c','l','i','c','k']]) fuel cs
  let convs := scanAll (tryUnit [['c','o','n','v','e','r','s','i','o','n']]) fuel cs
  let viss := scanAll (tryUnit [['v','i','s','i','t','o','r'], ['u','s','e','r']]) fuel cs
  let ctrs := scanAll tryCtr fuel cs
  let dates := scanAll tryDate fuel cs
  let commaFree := fun (m : List Char) => m.filter (fun c => decide (c ≠ ','))
  (if pct ≠ [] then [("percentages", MetricValue.strs (pct.map String.mk))] else []) ++
  (if dollars ≠ [] then [("dollar_amounts", MetricValue.strs (dollars.map String.mk))] else []) ++
  (if large ≠ [] then
    [("large_numbers", MetricValue.nums (large.map (fun p =>
      parseDecQ p.1 * (if asciiLower p.2 = 'k' then 1000
        else if asciiLower p.2 = 'm' then 1000000 else 1000000000))))]
   else []) ++
  (if imps ≠ [] then
    [("impressions", MetricValue.nums (imps.map (fun m => (parseNatDigits (commaFree m) : ℚ))))]
   else []) ++
  (if clks ≠ [] then
    [("clicks", MetricValue.nums (clks.map (fun m => (parseNatDigits (commaFree m) : ℚ))))]
   else []) ++
  (if convs ≠ [] then
    [("conversions", MetricValue.nums (convs.map (fun m => (parseNatDigits (commaFree m) : ℚ))))]
   else []) ++
  (if viss ≠ [] then
    [("visitors", MetricValue.nums (viss.map (fun m => (parseNatDigits (commaFree m) : ℚ))))]
   else []) ++
  (if ctrs ≠ [] then [("ctr", MetricValue.strs (ctrs.map String.mk))] else []) ++
  (if dates ≠ [] then [("dates", MetricValue.strs (dates.map String.mk))] else [])

/-! ## Unstructured rows and the structured/unstructured merge
(unstructured.py) -/

/-- The entity classes of `extract_entities_from_text` — the five keys
are fixed by the source.  The class *contents* are kept as a parameter
of the pipeline embedding: the source deduplicates each class with
`list(set(..))`, whose ordering is interpreter-defined, so the exact
lists are not shallowly translatable; every theorem below holds for
arbitrary contents. -/
structure Entities where
  campaigns : List String
  regions : List String
  products : List String
  dates : List String
  companies : List String
  deriving DecidableEq, Repr

/-- `entities.items()` in dict insertion order. -/
def entityItems (e : Entities) : List (String × List String) :=
  [("campaigns", e.campaigns), ("regions", e.regions), ("products", e.products),
   ("dates", e.dates), ("companies", e.companies)]

/-- An Extraction Result (`{metrics, entities, key_findings, sentiment,
method}`); the regex path always has `key_findings = []` and no
sentiment. -/
structure ExtractedData where
  metrics : List (String × MetricValue)
  entities : Entities
  key_findings : List String
  sentiment : Option String
  method : String

/-- `sep.join(strings)`. -/
def joinSep (sep : String) : List String → String
  | [] => ""
  | [x] => x
  | x :: y :: rest => x ++ sep ++ joinSep sep (y :: rest)

/-- `convert_unstructured_to_dataframe` from `unstructured.py`: one row
holding the source file and method, each scalar metric under its own
name, each non-empty numeric list as `<name>_total` and `<name>_count`
(string lists are dropped), each entity class as `<class>_count` plus a
joined `<class>_list` sample of at most 5 when non-empty, then joined
key findings and sentiment when present. -/
def convert_unstructured_to_dataframe (ed : ExtractedData) (src : String) : DataFrame :=
  let row : List (String × Cell) :=
    [("source_file", Cell.str src), ("extraction_method", Cell.str ed.method)] ++
    (ed.metrics.flatMap (fun p =>
      match p.2 with
      | MetricValue.num q => [(p.1, Cell.num q)]
      | MetricValue.nums l =>
        if l ≠ [] then
          [(p.1 ++ "_total", Cell.num l.sum), (p.1 ++ "_count", Cell.num l.length)]
        else []
      | MetricValue.strs _ => [])) ++
    ((entityItems ed.entities).flatMap (fun p =>
      [(p.1 ++ "_count", Cell.num p.2.length)] ++
      (if p.2 ≠ [] then [(p.1 ++ "_list", Cell.str (joinSep ", " (p.2.take 5)))] else []))) ++
    (if ed.key_findings ≠ [] then
      [("key_findings", Cell.str (joinSep " | " ed.key_findings))] else []) ++
    (match ed.sentiment with
     | some s => [("sentiment", Cell.str s)]
     | none => [])
  ⟨row.map (fun p => p.1), [row.map (fun p => p.2)]⟩

/-- `process_unstructured_files`, on already-read file contents, along
the deterministic path of `extract_structured_data_with_llm` (no
text-understanding credential: the guaranteed regex fallback).  Markdown
files go through `read_markdown_text` first; each file yields exactly
one row; the per-file frames are concatenated. -/
def process_unstructured_files (entf : String → Entities)
    (files : List (String × String)) : DataFrame :=
  concatFrames (files.map (fun f =>
    let text := if strEndsWith f.1 ".md" || strEndsWith f.1 ".markdown"
      then read_markdown_text f.2 else f.2
    convert_unstructured_to_dataframe
      ⟨extract_metrics_from_text text, entf text, [], none, "regex"⟩ f.1))

/-- `df['data_source_type'] = v`. -/
def addConstStrCol (df : DataFrame) (name v : String) : DataFrame :=
  setCol df name (List.replicate df.rows.length (Cell.str v))

/-- `merge_structured_and_unstructured` from `unstructured.py`: an empty
side passes the other through unchanged; otherwise both sides are tagged
with `data_source_type` and concatenated over the column union. -/
def merge_structured_and_unstructured (s u : DataFrame) : DataFrame :=
  if u.rows.length = 0 ∨ u.cols.length = 0 then s
  else if s.rows.length = 0 ∨ s.cols.length = 0 then u
  else concatFrames [addConstStrCol s "data_source_type" "structured",
                     addConstStrCol u "data_source_type" "unstructured"]

/-! ## Basic KPIs (kpis.py, compute_basic_kpis, lines 45-52) -/

/-- `int(x)` — truncation toward zero. -/
def ratTrunc (x : ℚ) : ℤ := if x < 0 then -⌊-x⌋ else ⌊x⌋

/-- The numeric value of a cell with NaN treated as 0, as `Series.sum()`
skips NaN. -/
def cellNumOrZero : Cell → ℚ
  | Cell.num q => q
  | _ => 0

/-- `df[c].sum()` for a numeric column. -/
def colSum (df : DataFrame) (c : String) : ℚ :=
  ((df.col c).map cellNumOrZero).sum

/-- `kpis['total_impressions'] = int(df['impressions'].sum())`, present
exactly when the column is. -/
def total_impressions_kpi (df : DataFrame) : Option ℤ :=
  if "impressions" ∈ df.cols then some (ratTrunc (colSum df "impressions")) else none

/-! ## Ingestion skeleton (ingest.py, ingest_data)

The filesystem interaction of `ingest_data` (globbing the upload
directory, reading and parsing the files) is modelled by a list of
already-read files: the name decides which branch processes the file,
`table` stands for the parsed content of a structured file and `text`
for the raw text of an unstructured one. -/

structure UploadFile where
  name : String
  table : DataFrame
  text : String

/-- Rename all columns with `normalize_column_name`. -/
def normalizeDF (df : DataFrame) : DataFrame :=
  ⟨df.cols.map normalize_column_name, df.rows⟩

/-- `ingest_data` up to (and including) the structured+unstructured
merge: structured files are merged and their columns normalized; when
both sides are empty the run aborts with the fatal
"No processable files found" error. -/
def ingest_merge_stage (entf : String → Entities) (files : List UploadFile) :
    Except String DataFrame :=
  let structuredFiles := files.filter (fun f => strEndsWith f.name ".csv") ++
    files.filter (fun f => strEndsWith f.name ".json")
  let unstructuredFiles := files.filter (fun f => strEndsWith f.name ".txt") ++
    files.filter (fun f => strEndsWith f.name ".pdf") ++
    files.filter (fun f => strEndsWith f.name ".md") ++
    files.filter (fun f => strEndsWith f.name ".markdown")
  let structuredStep : Except String DataFrame :=
    if structuredFiles.isEmpty then Except.ok ⟨[], []⟩
    else (merge_dataframes (structuredFiles.map (fun f => f.table))).map normalizeDF
  match structuredStep with
  | Except.error e => Except.error e
  | Except.ok structured_df =>
    let unstructured_df :=
      if unstructuredFiles.isEmpty then (⟨[], []⟩ : DataFrame)
      else process_unstructured_files entf
        (unstructuredFiles.map (fun f => (f.name, f.text)))
    if (structured_df.rows.length = 0 ∨ structured_df.cols.length = 0) ∧
        (unstructured_df.rows.length = 0 ∨ unstructured_df.cols.length = 0) then
      Except.error "No processable files found"
    else Except.ok (merge_structured_and_unstructured structured_df unstructured_df)

/-- `ingest_data`: the merge stage followed by the final column-name
normalization pass (the persistence of the parquet file is I/O). -/
def ingest_data (entf : String → Entities) (files : List UploadFile) :
    Except String DataFrame :=
  (ingest_merge_stage entf files).map normalizeDF

/-- Entity extraction returning empty classes — the value
`extract_entities_from_text` produces on text with no campaign phrases,
gazetteer regions or date tokens. -/
def noEntities : String → Entities := fun _ => ⟨[], [], [], [], []⟩

/-- The spec's end-to-end unstructured sample text. -/
def sampleReportText : String := "Impressions: 12,000, Clicks: 300, CTR: 2.5%"

/-- The upload batch of the spec's end-to-end scenario: two CSVs sharing
a `date` column and one text file with the sample report sentence. -/
def c5Files : List UploadFile :=
  [⟨"ads1.csv", ⟨["date", "impressions"], [[Cell.num 1, Cell.num 500]]⟩, ""⟩,
   ⟨"ads2.csv", ⟨["date", "spend"], [[Cell.num 1, Cell.num 5]]⟩, ""⟩,
   ⟨"notes.txt", ⟨[], []⟩, sampleReportText⟩]

/-- **C5, counterexample.**  Ingesting the spec's batch — two CSVs plus a
`.txt` whose text is "Impressions: 12,000, Clicks: 300, CTR: 2.5%" — the
merged table does gain one row (2 rows: 1 joined structured row + 1
unstructured row), but `total_impressions` is 500, the structured total
alone: the regex extractor's `impressions` pattern expects the number
*before* the word, so the 12,000 is never captured and the unstructured
row contributes nothing. -/
theorem C5_unstructured_impressions_counterexample :
    (ingest_data noEntities c5Files).map (fun df => df.rows.length) = Except.ok 2 ∧
      (ingest_data noEntities c5Files).map total_impressions_kpi =
        Except.ok (some 500) ∧
      ¬ ((12000 : ℤ) ≤ 500) := by
  refine ⟨by decide, ?_, by decide⟩
  have hcol : (ingest_data noEntities c5Files).map
      (fun df => (decide ("impressions" ∈ df.cols), df.col "impressions")) =
      Except.ok (true, [Cell.num 500, Cell.null]) := by decide
  cases hd : ingest_data noEntities c5Files with
  | error e =>
    rw [hd] at hcol
    simp [Except.map] at hcol
  | ok df =>
    rw [hd] at hcol
    simp only [Except.map] at hcol ⊢
    have hpair := Except.ok.inj hcol
    have h1 : "impressions" ∈ df.cols := by
      have hfst := congrArg Prod.fst hpair
      simp only at hfst
      exact of_decide_eq_true hfst
    have h2 : df.col "impressions" = [Cell.num 500, Cell.null] := congrArg Prod.snd hpair
    rw [total_impressions_kpi, if_pos h1, colSum, h2]
    norm_num [cellNumOrZero, ratTrunc]

/-- Every column name of an unstructured-derived row comes from one of
the fixed slots of `convert_unstructured_to_dataframe`. -/
lemma convert_cols_shape {ed : ExtractedData} {src c : String}
    (hc : c ∈ (convert_unstructured_to_dataframe ed src).cols) :
    c = "source_file" ∨ c = "extraction_method" ∨
      (∃ p ∈ ed.metrics, c = p.1 ∨ c = p.1 ++ "_total" ∨ c = p.1 ++ "_count") ∨
      (∃ p ∈ entityItems ed.entities, c = p.1 ++ "_count" ∨ c = p.1 ++ "_list") ∨
      c = "key_findings" ∨ c = "sentiment" := by
  rw [convert_unstructured_to_dataframe] at hc
  simp only [List.map_append, List.mem_append] at hc
  rcases hc with ((((hb | hmet) | hent) | hkf) | hsent)
  · simp only [List.map_cons, List.map_nil, List.mem_cons, List.not_mem_nil, or_false] at hb
    rcases hb with h | h
    · exact Or.inl h
    · exact Or.inr (Or.inl h)
  · refine Or.inr (Or.inr (Or.inl ?_))
    simp only [List.mem_map, List.mem_flatMap] at hmet
    obtain ⟨pair, ⟨p, hp, hpair⟩, rfl⟩ := hmet
    refine ⟨p, hp, ?_⟩
    split at hpair
    · simp only [List.mem_cons, List.not_mem_nil, or_false] at hpair
      subst hpair
      exact Or.inl rfl
    · split at hpair
      · simp only [List.mem_cons, List.not_mem_nil, or_false] at hpair
        rcases hpair with rfl | rfl
        · exact Or.inr (Or.inl rfl)
        · exact Or.inr (Or.inr rfl)
      · exact absurd hpair (List.not_mem_nil pair)
    · exact absurd hpair (List.not_mem_nil pair)
  · refine Or.inr (Or.inr (Or.inr (Or.inl ?_)))
    simp only [List.mem_map, List.mem_flatMap] at hent
    obtain ⟨pair, ⟨p, hp, hpair⟩, rfl⟩ := hent
    refine ⟨p, hp, ?_⟩
    rcases List.mem_append.mp hpair with h1 | h1
    · simp only [List.mem_cons, List.not_mem_nil, or_false] at h1
      subst h1
      exact Or.inl rfl
    · by_cases hl : p.2 ≠ []
      · rw [if_pos hl] at h1
        simp only [List.mem_cons, List.not_mem_nil, or_false] at h1
        subst h1
        exact Or.inr rfl
      · rw [if_neg hl] at h1
        exact absurd h1 (List.not_mem_nil pair)
  · refine Or.inr (Or.inr (Or.inr (Or.inr (Or.inl ?_))))
    by_cases hl : ed.key_findings ≠ []
    · rw [if_pos hl] at hkf
      simp only [List.map_cons, List.map_nil, List.mem_cons, List.not_mem_nil, or_false] at hkf
      exact hkf
    · rw [if_neg hl] at hkf
      simp at hkf
  · refine Or.inr (Or.inr (Or.inr (Or.inr (Or.inr ?_))))
    rcases hs : ed.sentiment with _ | s
    · rw [hs] at hsent
      simp at hsent
    · rw [hs] at hsent
      simp only [List.map_cons, List.map_nil, List.mem_cons, List.not_mem_nil, or_false] at hsent
      exact hsent

/-- **C5, amended.**  On the sample text the regex extractor captures
only string-valued matches (the percentage and the CTR figure, both
"2.5"); string lists produce no columns, so for every possible entity
extraction the unstructured row has no `impressions` column at all, and
it contributes exactly one row to the final table while leaving
`total_impressions` at the structured total. -/
theorem C5_unstructured_impressions_amended (entf : String → Entities) :
    extract_metrics_from_text sampleReportText =
      [("percentages", MetricValue.strs ["2.5"]), ("ctr", MetricValue.strs ["2.5"])] ∧
      "impressions" ∉ (convert_unstructured_to_dataframe
        ⟨extract_metrics_from_text sampleReportText, entf sampleReportText, [], none, "regex"⟩
        "notes.txt").cols ∧
      (process_unstructured_files entf [("notes.txt", sampleReportText)]).rows.length = 1 := by
  refine ⟨by decide, ?_, ?_⟩
  · intro hmem
    rcases convert_cols_shape hmem with h | h | ⟨p, hp, hcc⟩ | ⟨p, hp, hcc⟩ | h | h
    · exact absurd h (by decide)
    · exact absurd h (by decide)
    · have hp2 : p = ("percentages", MetricValue.strs ["2.5"]) ∨
          p = ("ctr", MetricValue.strs ["2.5"]) := by
        have hmet : extract_metrics_from_text sampleReportText =
            [("percentages", MetricValue.strs ["2.5"]), ("ctr", MetricValue.strs ["2.5"])] := by
          decide
        rw [hmet] at hp
        rcases List.mem_cons.mp hp with h1 | h1
        · exact Or.inl h1
        · rcases List.mem_cons.mp h1 with h2 | h2
          · exact Or.inr h2
          · exact absurd h2 (by simp)
      rcases hp2 with rfl | rfl <;>
        rcases hcc with h | h | h <;> exact absurd h (by decide)
    · have hp1 : p.1 = "campaigns" ∨ p.1 = "regions" ∨ p.1 = "products" ∨
          p.1 = "dates" ∨ p.1 = "companies" := by
        simp only [entityItems, List.mem_cons, List.not_mem_nil, or_false] at hp
        rcases hp with rfl | rfl | rfl | rfl | rfl
        · exact Or.inl rfl
        · exact Or.inr (Or.inl rfl)
        · exact Or.inr (Or.inr (Or.inl rfl))
        · exact Or.inr (Or.inr (Or.inr (Or.inl rfl)))
        · exact Or.inr (Or.inr (Or.inr (Or.inr rfl)))
      rcases hp1 with h1 | h1 | h1 | h1 | h1 <;> rw [h1] at hcc <;>
        rcases hcc with h | h <;> exact absurd h (by decide)
    · exact absurd h (by decide)
    · exact absurd h (by decide)
  · rw [process_unstructured_files]
    simp [concatFrames, convert_unstructured_to_dataframe]

/-- Witness: the amended C5 facts under the empty entity extraction (the
value the source's entity extractor yields on this text). -/
theorem C5_unstructured_impressions_amended_witness :
    extract_metrics_from_text sampleReportText =
      [("percentages", MetricValue.strs ["2.5"]), ("ctr", MetricValue.strs ["2.5"])] ∧
      "impressions" ∉ (convert_unstructured_to_dataframe
        ⟨extract_metrics_from_text sampleReportText, noEntities sampleReportText, [], none,
          "regex"⟩ "notes.txt").cols ∧
      (process_unstructured_files noEntities
        [("notes.txt", sampleReportText)]).rows.length = 1 :=
  C5_unstructured_impressions_amended noEntities

/-- **C7.** When no file of the upload batch carries a processable
extension (csv, json, txt, pdf, md, markdown — e.g. a directory holding
only an `.xlsx`), ingestion aborts with the descriptive fatal error
rather than returning an empty report. -/
theorem C7_zero_processable_files (entf : String → Entities) (files : List UploadFile)
    (h : ∀ f ∈ files,
      strEndsWith f.name ".csv" = false ∧ strEndsWith f.name ".json" = false ∧
      strEndsWith f.name ".txt" = false ∧ strEndsWith f.name ".pdf" = false ∧
      strEndsWith f.name ".md" = false ∧ strEndsWith f.name ".markdown" = false) :
    ingest_data entf files = Except.error "No processable files found" := by
  have hcsv : files.filter (fun f => strEndsWith f.name ".csv") = [] :=
    List.filter_eq_nil_iff.mpr (fun f hf => by simp [(h f hf).1])
  have hjson : files.filter (fun f => strEndsWith f.name ".json") = [] :=
    List.filter_eq_nil_iff.mpr (fun f hf => by simp [(h f hf).2.1])
  have htxt : files.filter (fun f => strEndsWith f.name ".txt") = [] :=
    List.filter_eq_nil_iff.mpr (fun f hf => by simp [(h f hf).2.2.1])
  have hpdf : files.filter (fun f => strEndsWith f.name ".pdf") = [] :=
    List.filter_eq_nil_iff.mpr (fun f hf => by simp [(h f hf).2.2.2.1])
  have hmd : files.filter (fun f => strEndsWith f.name ".md") = [] :=
    List.filter_eq_nil_iff.mpr (fun f hf => by simp [(h f hf).2.2.2.2.1])
  have hmkd : files.filter (fun f => strEndsWith f.name ".markdown") = [] :=
    List.filter_eq_nil_iff.mpr (fun f hf => by simp [(h f hf).2.2.2.2.2])
  have hstage : ingest_merge_stage entf files = Except.error "No processable files found" := by
    rw [ingest_merge_stage]
    simp only [hcsv, hjson, htxt, hpdf, hmd, hmkd]
    simp
  rw [ingest_data, hstage]
  rfl

/-- Witness: a batch holding only `report.xlsx` fails with the fatal
error. -/
theorem C7_zero_processable_files_witness :
    ingest_data noEntities [⟨"report.xlsx", ⟨[], []⟩, ""⟩] =
      Except.error "No processable files found" :=
  C7_zero_processable_files noEntities [⟨"report.xlsx", ⟨[], []⟩, ""⟩] (by decide)

/-- **C8, counterexample.**  Normalization renames columns but does not
deduplicate: a single CSV with raw columns `"A B"` and `"A_B"` ingests to
a table whose column list is `["a_b", "a_b"]` — not pairwise distinct. -/
theorem C8_unique_columns_counterexample :
    (ingest_data noEntities
      [⟨"a.csv", ⟨["A B", "A_B"], [[Cell.num 1, Cell.num 2]]⟩, ""⟩]).map DataFrame.cols =
      Except.ok ["a_b", "a_b"] ∧ ¬ (["a_b", "a_b"] : List String).Nodup := by
  exact ⟨by decide, by decide⟩

/-- **C8, amended.**  After the final normalization pass every column
name of the ingested result is in canonical form (a fixed point of
`normalize_column_name`); the names are pairwise distinct exactly when
normalization maps the pre-normalization column names injectively, which
the counterexample shows can fail. -/
theorem C8_normalized_columns_amended (entf : String → Entities)
    (files : List UploadFile) (m : DataFrame)
    (hm : ingest_merge_stage entf files = Except.ok m) :
    ingest_data entf files = Except.ok (normalizeDF m) ∧
      ((normalizeDF m).cols.all (fun c => decide (normalize_column_name c = c)) = true) ∧
      ((m.cols.map normalize_column_name).Nodup → (normalizeDF m).cols.Nodup) := by
  refine ⟨by rw [ingest_data, hm]; rfl, ?_, ?_⟩
  · rw [List.all_eq_true]
    intro c hc
    simp only [normalizeDF, List.mem_map] at hc
    obtain ⟨x, _, rfl⟩ := hc
    simp only [decide_eq_true_eq]
    exact normalize_column_name_idem x
  · intro hnd
    exact hnd

/-- Witness: the amended C8 at a one-column CSV batch. -/
theorem C8_normalized_columns_amended_witness :
    ingest_data noEntities [⟨"d.csv", ⟨["Date"], [[Cell.num 1]]⟩, ""⟩] =
        Except.ok (normalizeDF ⟨["date"], [[Cell.num 1]]⟩) ∧
      ((normalizeDF (⟨["date"], [[Cell.num 1]]⟩ : DataFrame)).cols.all
        (fun c => decide (normalize_column_name c = c)) = true) ∧
      (((⟨["date"], [[Cell.num 1]]⟩ : DataFrame).cols.map normalize_column_name).Nodup →
        (normalizeDF (⟨["date"], [[Cell.num 1]]⟩ : DataFrame)).cols.Nodup) :=
  C8_normalized_columns_amended noEntities [⟨"d.csv", ⟨["Date"], [[Cell.num 1]]⟩, ""⟩]
    ⟨["date"], [[Cell.num 1]]⟩ (by decide)
